import Mathlib

/-!
# Verification of the barkak-domino game server core

Shallow embedding of the Python sources under `src/backend/` (logic.py,
models.py, rooms.py, cpu.py, main.py) as executable Lean definitions,
together with theorems settling the frozen claims about the spec.

Modelling conventions:
* Python `int` pip values are `Nat` (pydantic constrains them to `0..6`;
  no arithmetic here can overflow or go negative except where noted, in
  which case `Int` is used, e.g. round points which Python clamps with
  `max(0, ...)`).
* The `picking_tiles` dict (int key -> Domino) is an association list
  `List (Nat × Domino)`; keys are created distinct by `enumerate` and
  only ever removed, matching dict semantics.
* Wall-clock timestamps (`datetime.utcnow()`) are modelled as an `Int`
  parameter `now` threaded into each operation that reads the clock;
  their values never influence control flow in the embedded functions.
* `models.py` in this snapshot declares `GameStatus` with only
  `WAITING/PLAYING/FINISHED` and omits the `picking_tiles`,
  `picking_started_at`, `turn_timeout`, `picking_timeout` fields, while
  `logic.py` and `main.py` use `GameStatus.PICKING` and those fields
  throughout; the embedding includes them as the rest of the code (and
  the spec's state machine `WAITING → PICKING → PLAYING → FINISHED`)
  requires.
* Python's `random.shuffle` / `random.choice` are modelled by explicit
  parameters (a shuffled list required to be a permutation of the
  generated set; a chosen index reduced mod the available-list length),
  universally quantified in all theorems.
-/

/-- A domino tile, `models.Domino`: stored orientation `(left, right)`,
each pip in `0..6` (pydantic-validated). -/
structure Domino where
  left : Nat
  right : Nat
deriving DecidableEq, Repr

namespace Domino

/-- `Domino.__eq__`: orientation-insensitive equality. -/
def dEq (a b : Domino) : Bool :=
  (a.left == b.left && a.right == b.right) ||
  (a.left == b.right && a.right == b.left)

/-- `Domino.is_double`. -/
def is_double (d : Domino) : Bool := d.left == d.right

/-- `Domino.total`. -/
def total (d : Domino) : Nat := d.left + d.right

/-- `Domino.flipped`. -/
def flipped (d : Domino) : Domino := ⟨d.right, d.left⟩

/-- Canonical identity of a tile as the unordered pair `(min, max)`
(the hash key used by `Domino.__hash__`). -/
def canon (d : Domino) : Nat × Nat := (min d.left d.right, max d.left d.right)

end Domino

/-- `models.PlayedDomino`. -/
structure PlayedDomino where
  domino : Domino
  position : Nat
deriving DecidableEq, Repr

/-- `models.GameStatus` plus the `PICKING` member used by `logic.py` and
`main.py` (see module docstring). -/
inductive GameStatus where
  | waiting
  | picking
  | playing
  | finished
deriving DecidableEq, Repr

/-- `models.Player`. The `id` is a uuid string in the service. -/
structure Player where
  id : String
  name : String
  hand : List Domino
  score : Nat
  connected : Bool
  is_cpu : Bool
deriving DecidableEq, Repr

/-- `Player.hand_total`. -/
def Player.hand_total (p : Player) : Nat := (p.hand.map Domino.total).sum

/-- `models.BoardEnds`. -/
structure BoardEnds where
  left : Option Nat
  right : Option Nat
deriving DecidableEq, Repr

/-- `models.Game` (the fields the embedded operations read or write;
cosmetic fields such as `created_at`/`last_activity` are omitted as no
claim refers to them). Timeouts are seconds as `Int`, timestamps as
`Option Int`. -/
structure Game where
  id : String
  variant : String
  status : GameStatus
  players : List Player
  current_turn : Option String
  board : List PlayedDomino
  boneyard : List Domino
  ends : BoardEnds
  max_players : Nat
  winner_id : Option String
  round_number : Nat
  match_id : Option String
  picking_tiles : List (Nat × Domino)
  turn_timeout : Int
  picking_timeout : Int
  turn_started_at : Option Int
  picking_started_at : Option Int
deriving DecidableEq, Repr

namespace Game

/-- `Game.get_player`: the first seated player with the given id. -/
def get_player (g : Game) (pid : String) : Option Player :=
  g.players.find? (fun p => p.id == pid)

/-- `Game.get_player_index`: index of the first player with the id, `-1`
if absent. -/
def get_player_index (g : Game) (pid : String) : Int :=
  match g.players.findIdx? (fun p => p.id == pid) with
  | some i => (i : Int)
  | none => -1

end Game

/-- Mutation of the (first) player found by `get_player`: Python code
obtains the object reference and mutates it in place; in the embedding
the first id-matching entry of the seat list is replaced by `f` of it. -/
def updatePlayer (ps : List Player) (pid : String) (f : Player → Player) :
    List Player :=
  match ps with
  | [] => []
  | p :: rest =>
    if p.id == pid then f p :: rest else p :: updatePlayer rest pid f

/-- Association-list lookup mirroring `dict.__getitem__` /
`in`-membership on `picking_tiles`. -/
def dictLookup (l : List (Nat × Domino)) (k : Nat) : Option Domino :=
  (l.find? (fun e => e.1 == k)).map (·.2)

/-- `dict.pop(k)`: remove the (unique) entry with key `k`. -/
def dictErase (l : List (Nat × Domino)) (k : Nat) : List (Nat × Domino) :=
  l.eraseP (fun e => e.1 == k)

/-- `logic.generate_domino_set`: the 28 tiles `{i,j}`, `0 ≤ i ≤ j ≤ 6`,
in the nested-loop order of the Python code. -/
def generate_domino_set : List Domino :=
  (List.range 7).flatMap (fun i =>
    (List.range' i (7 - i)).map (fun j => Domino.mk i j))

/-- Loop body of the first pass of `logic.find_starting_player`:
`if domino.is_double() and domino.left > best_double`. The accumulator
is `(best_double, best_player_id)`. -/
def fspDoubleStep (pid : String) (acc : Int × Option String) (d : Domino) :
    Int × Option String :=
  if d.is_double && decide ((d.left : Int) > acc.1) then
    ((d.left : Int), some pid)
  else acc

/-- Loop body of the second pass of `logic.find_starting_player`:
`if domino.total() > best_total`. -/
def fspTotalStep (pid : String) (acc : Int × Option String) (d : Domino) :
    Int × Option String :=
  if decide ((d.total : Int) > acc.1) then ((d.total : Int), some pid)
  else acc

/-- `logic.find_starting_player`: id of the holder of the highest
double, else of the highest-total tile, else `None`. Both passes are
the Python accumulating loops. -/
def find_starting_player (g : Game) : Option String :=
  let best₁ :=
    g.players.foldl (fun acc p => p.hand.foldl (fspDoubleStep p.id) acc)
      ((-1 : Int), (none : Option String))
  match best₁.2 with
  | some pid => some pid
  | none =>
    (g.players.foldl (fun acc p => p.hand.foldl (fspTotalStep p.id) acc)
      ((-1 : Int), (none : Option String))).2

/-- `logic.start_game`: enter the PICKING phase. `ds` is the shuffled
full set (`random.shuffle` output); `picking_tiles` indexes it by fixed
grid positions `0..27` as `dict(enumerate(ds))` does. The Python
function also takes a `starting_player_id` argument that its body never
reads; it is omitted here. -/
def start_game (g : Game) (ds : List Domino) (now : Int) : Game :=
  { g with
    picking_tiles := ds.enum
    players := g.players.map (fun p => { p with hand := [] })
    board := []
    boneyard := []
    ends := ⟨none, none⟩
    status := .picking
    current_turn := none
    turn_started_at := none
    picking_started_at := some now }

/-- `logic.start_playing_phase`: remaining grid tiles become the
boneyard (overwriting it), the starting player is the truthy-and-seated
override if any, else `find_starting_player`. -/
def start_playing_phase (g : Game) (starting_player_id : Option String)
    (now : Int) : Game :=
  let g₁ := { g with
    boneyard := g.picking_tiles.map Prod.snd
    picking_tiles := []
    picking_started_at := none }
  let current :=
    match starting_player_id with
    | some s =>
      if s ≠ "" && (g₁.get_player s).isSome then some s
      else find_starting_player g₁
    | none => find_starting_player g₁
  { g₁ with
    current_turn := current
    status := .playing
    turn_started_at := some now }

/-- `logic.can_play_on_side`. -/
def can_play_on_side (d : Domino) (end_value : Option Nat) : Bool :=
  match end_value with
  | none => true
  | some v => d.left == v || d.right == v

/-- `logic.get_valid_moves` inner loop: for each hand tile, a left move
if it matches the left end, then a right move if it matches the right
end and the two ends differ. -/
def collectMoves (ends : BoardEnds) (hand : List Domino) :
    List (Domino × String) :=
  match hand with
  | [] => []
  | d :: rest =>
    (if can_play_on_side d ends.left then [(d, "left")] else []) ++
    (if can_play_on_side d ends.right && ends.left ≠ ends.right then
      [(d, "right")] else []) ++
    collectMoves ends rest

/-- `logic.get_valid_moves`. -/
def get_valid_moves (g : Game) (pid : String) : List (Domino × String) :=
  match g.get_player pid with
  | none => []
  | some player =>
    if g.board.isEmpty then player.hand.map (fun d => (d, "left"))
    else collectMoves g.ends player.hand

/-- `logic.has_valid_move`. -/
def has_valid_move (g : Game) (pid : String) : Bool :=
  ¬ (get_valid_moves g pid).isEmpty

/-- `logic.advance_turn`. Python's `if not game.current_turn` treats
both `None` and the empty string as falsy. -/
def advance_turn (g : Game) (now : Int) : Game :=
  match g.current_turn with
  | none => g
  | some t =>
    if t == "" || g.players.isEmpty then g
    else
      let n := ((g.get_player_index t + 1) % (g.players.length : Int)).toNat
      match g.players[n]? with
      | some p =>
        { g with current_turn := some p.id, turn_started_at := some now }
      | none => g

/-- Python `min(players, key=hand_total)`: the first element attaining
the minimum (strict-`<` replacement while folding). -/
def pyMinBy (f : Player → Nat) (h : Player) (t : List Player) : Player :=
  t.foldl (fun b x => if f x < f b then x else b) h

/-- `logic.check_game_over`. Its `bool` return value is ignored by every
caller, so only the updated game is returned. On an empty seat list the
Python `min` would raise `ValueError`; that branch is unreachable from
the service entry points (every path into it goes through a seated
player) and is embedded as the identity. -/
def check_game_over (g : Game) : Game :=
  match g.players.find? (fun p => p.hand.isEmpty) with
  | some p => { g with status := .finished, winner_id := some p.id }
  | none =>
    if g.players.all (fun p => ¬ has_valid_move g p.id) then
      match g.players with
      | [] => g
      | p :: ps =>
        { g with
          status := .finished
          winner_id := some (pyMinBy Player.hand_total p ps).id }
    else g

/-- Rendering of `ends.left` / `ends.right` inside the Python f-string
error messages (`None` when unset). -/
def endStr (e : Option Nat) : String :=
  match e with
  | none => "None"
  | some v => toString v

/-- `logic.play_tile`. Returns the updated game together with the
`(success, message)` pair. -/
def play_tile (g : Game) (pid : String) (d : Domino) (side : String)
    (now : Int) : Game × Bool × String :=
  if g.status ≠ .playing then (g, false, "Game is not in progress")
  else if g.current_turn ≠ some pid then (g, false, "It's not your turn")
  else
    match g.get_player pid with
    | none => (g, false, "Player not found")
    | some player =>
      match player.hand.find? (fun h => h.dEq d) with
      | none => (g, false, "You don't have that domino")
      | some hand_domino =>
        if g.board.isEmpty then
          let g₁ := { g with
            board := g.board ++ [⟨d, 0⟩]
            ends := ⟨some d.left, some d.right⟩
            players := updatePlayer g.players pid (fun p =>
              { p with hand := p.hand.eraseP (fun h => h.dEq hand_domino) }) }
          (check_game_over (advance_turn g₁ now), true, "Tile played")
        else if side == "left" then
          if ¬ can_play_on_side d g.ends.left then
            (g, false,
              "Domino doesn't match left end (" ++ endStr g.ends.left ++ ")")
          else
            let pd := if g.ends.left == some d.right then d else d.flipped
            let g₁ := { g with
              board := ⟨pd, 0⟩ :: g.board
              ends := { g.ends with left := some pd.left }
              players := updatePlayer g.players pid (fun p =>
                { p with hand := p.hand.eraseP (fun h => h.dEq hand_domino) }) }
            (check_game_over (advance_turn g₁ now), true, "Tile played")
        else if side == "right" then
          if ¬ can_play_on_side d g.ends.right then
            (g, false,
              "Domino doesn't match right end (" ++ endStr g.ends.right ++ ")")
          else
            let pd := if g.ends.right == some d.left then d else d.flipped
            let g₁ := { g with
              board := g.board ++ [⟨pd, g.board.length⟩]
              ends := { g.ends with right := some pd.right }
              players := updatePlayer g.players pid (fun p =>
                { p with hand := p.hand.eraseP (fun h => h.dEq hand_domino) }) }
            (check_game_over (advance_turn g₁ now), true, "Tile played")
        else (g, false, "Invalid side (must be 'left' or 'right')")

/-- `logic.pass_turn`. -/
def pass_turn (g : Game) (pid : String) (now : Int) : Game × Bool × String :=
  if g.status ≠ .playing then (g, false, "Game is not in progress")
  else if g.current_turn ≠ some pid then (g, false, "It's not your turn")
  else if has_valid_move g pid then
    (g, false, "You have valid moves available")
  else (check_game_over (advance_turn g now), true, "Turn passed")

/-- `logic.check_picking_complete`. -/
def check_picking_complete (g : Game) : Bool :=
  g.players.all (fun p => p.hand.length ≥ 6)

/-- `logic.claim_tile`. -/
def claim_tile (g : Game) (pid : String) (grid_position : Nat)
    (now : Int) : Game × Bool × String :=
  if g.status ≠ .picking then (g, false, "Game is not in picking phase")
  else
    match g.get_player pid with
    | none => (g, false, "Player not found")
    | some player =>
      if player.hand.length ≥ 6 then (g, false, "You already have 6 tiles")
      else
        match dictLookup g.picking_tiles grid_position with
        | none => (g, false, "That tile is not available")
        | some tile =>
          let g₁ := { g with
            picking_tiles := dictErase g.picking_tiles grid_position
            players := updatePlayer g.players pid (fun p =>
              { p with hand := p.hand ++ [tile] }) }
          if check_picking_complete g₁ then
            (start_playing_phase g₁ none now, true, "Tile claimed")
          else (g₁, true, "Tile claimed")

/-- `logic.cpu_claim_tile`. `choice` stands for the output of
`random.choice(list(picking_tiles.keys()))`, taken as an index into the
key list modulo its (guarded non-zero) length. -/
def cpu_claim_tile (g : Game) (cpu_player_id : String) (choice : Nat)
    (now : Int) : Game × Bool × String × Option Nat :=
  if g.status ≠ .picking then
    (g, false, "Game is not in picking phase", none)
  else
    match g.get_player cpu_player_id with
    | none => (g, false, "Not a CPU player", none)
    | some player =>
      if ¬ player.is_cpu then (g, false, "Not a CPU player", none)
      else if player.hand.length ≥ 6 then
        (g, false, "CPU already has 6 tiles", none)
      else if g.picking_tiles.isEmpty then
        (g, false, "No tiles available", none)
      else
        let keys := g.picking_tiles.map (·.1)
        let grid_position := keys.getD (choice % keys.length) 0
        let r := claim_tile g cpu_player_id grid_position now
        (r.1, r.2.1, r.2.2, if r.2.1 then some grid_position else none)

/-- The `while` loop of `logic.auto_assign_remaining_tiles`: claim
random grid tiles for the player until their hand reaches 6 or the grid
empties. `choose` supplies the successive `random.choice` outcomes as
indices into the current key list; one unit of fuel is consumed per
iteration, and `fuel = |picking_tiles|` makes the fuel bound
unreachable (the grid shrinks by one entry per iteration). -/
def autoAssignLoop (g : Game) (pid : String) (choose : Nat → Nat)
    (step : Nat) : Nat → Game × List Nat
  | 0 => (g, [])
  | fuel + 1 =>
    match g.get_player pid with
    | none => (g, [])
    | some p =>
      if p.hand.length < 6 && ¬ g.picking_tiles.isEmpty then
        let keys := g.picking_tiles.map (·.1)
        let k := keys.getD (choose step % keys.length) 0
        match dictLookup g.picking_tiles k with
        | none => (g, [])
        | some tile =>
          let g' := { g with
            picking_tiles := dictErase g.picking_tiles k
            players := updatePlayer g.players pid (fun q =>
              { q with hand := q.hand ++ [tile] }) }
          let r := autoAssignLoop g' pid choose (step + 1) fuel
          (r.1, k :: r.2)
      else (g, [])

/-- `logic.auto_assign_remaining_tiles`. -/
def auto_assign_remaining_tiles (g : Game) (pid : String)
    (choose : Nat → Nat) (now : Int) : Game × List Nat :=
  match g.get_player pid with
  | none => (g, [])
  | some _ =>
    let r := autoAssignLoop g pid choose 0 g.picking_tiles.length
    (if check_picking_complete r.1 then start_playing_phase r.1 none now
     else r.1, r.2)

/-- `logic.start_new_round`. -/
def start_new_round (g : Game) : Game :=
  { g with
    status := .waiting
    board := []
    boneyard := []
    ends := ⟨none, none⟩
    winner_id := none
    picking_tiles := []
    picking_started_at := none
    players := g.players.map (fun p => { p with hand := [] }) }

/-! ## Reachability

States of a round, from `start_game` up to (but not including) the
`start_new_round` reset: the externally invocable operations are
`claim_tile` (websocket `claim_tile`), `cpu_claim_tile` (CPU picking
worker), `auto_assign_remaining_tiles` (picking-timeout sweep),
`play_tile` and `pass_turn` (websocket / CPU driver / turn-timeout
sweep).  `start_playing_phase` is only ever invoked from inside
`claim_tile` / `auto_assign_remaining_tiles`.  The auto-assign step
carries the guard of its sole caller, `main.handle_picking_timeout`,
which invokes it only for a player whose hand is still below 6. -/

inductive Reachable : Game → Prop where
  | base : ∀ (g : Game) (ds : List Domino) (now : Int),
      ds.Perm generate_domino_set → Reachable (start_game g ds now)
  | claim : ∀ {g} (pid : String) (pos : Nat) (now : Int),
      Reachable g → Reachable (claim_tile g pid pos now).1
  | cpuClaim : ∀ {g} (pid : String) (choice : Nat) (now : Int),
      Reachable g → Reachable (cpu_claim_tile g pid choice now).1
  | autoAssign : ∀ {g} (pid : String) (choose : Nat → Nat) (now : Int),
      (∀ p, g.get_player pid = some p → p.hand.length < 6) →
      Reachable g → Reachable (auto_assign_remaining_tiles g pid choose now).1
  | play : ∀ {g} (pid : String) (d : Domino) (side : String) (now : Int),
      Reachable g → Reachable (play_tile g pid d side now).1
  | pass : ∀ {g} (pid : String) (now : Int),
      Reachable g → Reachable (pass_turn g pid now).1

/-! ## Tile conservation -/

/-- The multiset of canonical tile identities of a list of dominoes. -/
def canonMS (l : List Domino) : Multiset (Nat × Nat) :=
  (l.map Domino.canon : List (Nat × Nat))

/-- All tiles currently in some player's hand. -/
def canonJoin (ps : List Player) : Multiset (Nat × Nat) :=
  canonMS ((ps.map Player.hand).flatten)

/-- Every tile in the game: hands, boneyard, board and picking grid. -/
def tilesOf (g : Game) : Multiset (Nat × Nat) :=
  canonJoin g.players + canonMS g.boneyard +
  canonMS (g.board.map PlayedDomino.domino) +
  canonMS (g.picking_tiles.map Prod.snd)

/-- The canonical double-six set. -/
def fullTiles : Multiset (Nat × Nat) := canonMS generate_domino_set

theorem canonMS_append (l₁ l₂ : List Domino) :
    canonMS (l₁ ++ l₂) = canonMS l₁ + canonMS l₂ := by
  simp [canonMS, Multiset.coe_add]

theorem canonMS_cons (d : Domino) (l : List Domino) :
    canonMS (d :: l) = {d.canon} + canonMS l := by
  simp [canonMS, Multiset.singleton_add, Multiset.cons_coe]

theorem canonJoin_cons (p : Player) (ps : List Player) :
    canonJoin (p :: ps) = canonMS p.hand + canonJoin ps := by
  simp [canonJoin, List.flatten, canonMS_append]

theorem dEq_canon {a b : Domino} (h : a.dEq b = true) : a.canon = b.canon := by
  simp only [Domino.dEq, Bool.or_eq_true, Bool.and_eq_true, beq_iff_eq] at h
  rcases h with ⟨h₁, h₂⟩ | ⟨h₁, h₂⟩ <;>
    simp [Domino.canon, h₁, h₂, Nat.min_comm, Nat.max_comm]

theorem dEq_refl (a : Domino) : a.dEq a = true := by
  simp [Domino.dEq]

/-- Removing the first element satisfying `q` from a list of dominoes
whose `q`-satisfiers all have canonical form `c` removes exactly one
copy of `c` from the canonical multiset. -/
theorem canonMS_eraseP {l : List Domino} {q : Domino → Bool} {c : Nat × Nat}
    (hex : ∃ x ∈ l, q x = true) (hc : ∀ x, q x = true → x.canon = c) :
    canonMS (l.eraseP q) + {c} = canonMS l := by
  obtain ⟨x, hx, hqx⟩ := hex
  obtain ⟨a, l₁, l₂, _, hpa, hl, he⟩ := List.exists_of_eraseP hx hqx
  rw [he, hl, canonMS_append, canonMS_append, canonMS_cons, hc a hpa]
  abel

/-- Appending a tile to the hand of the first player matching `pid`
adds exactly its canonical form to the hands multiset. -/
theorem canonJoin_update_append {ps : List Player} {pid : String}
    (t : Domino) (h : ∃ p ∈ ps, p.id = pid) :
    canonJoin (updatePlayer ps pid (fun p => { p with hand := p.hand ++ [t] }))
      = canonJoin ps + {t.canon} := by
  induction ps with
  | nil => simp at h
  | cons p rest ih =>
    by_cases hp : p.id = pid
    · simp only [updatePlayer, hp, beq_self_eq_true, if_pos]
      rw [canonJoin_cons, canonJoin_cons, canonMS_append]
      simp [canonMS_cons, canonMS]
      abel
    · have : (p.id == pid) = false := by simp [hp]
      simp only [updatePlayer, this, Bool.false_eq_true, if_neg,
        not_false_eq_true]
      rw [canonJoin_cons, canonJoin_cons, ih]
      · abel
      · rcases h with ⟨q, hq, hqid⟩
        rcases List.mem_cons.mp hq with rfl | hq'
        · exact absurd hqid hp
        · exact ⟨q, hq', hqid⟩

/-- Erasing (the first `q`-satisfier, all of canonical form `c`) from
the hand of the first player matching `pid` removes exactly one copy of
`c` from the hands multiset. -/
theorem canonJoin_update_erase {ps : List Player} {pid : String}
    {q : Domino → Bool} {c : Nat × Nat} {p₀ : Player}
    (hfound : ps.find? (fun p => p.id == pid) = some p₀)
    (hex : ∃ x ∈ p₀.hand, q x = true)
    (hc : ∀ x, q x = true → x.canon = c) :
    canonJoin (updatePlayer ps pid (fun p => { p with hand := p.hand.eraseP q }))
      + {c} = canonJoin ps := by
  induction ps with
  | nil => simp at hfound
  | cons p rest ih =>
    by_cases hp : p.id = pid
    · have hpb : (p.id == pid) = true := by simp [hp]
      rw [List.find?_cons, hpb] at hfound
      simp only [Option.some.injEq] at hfound
      subst hfound
      simp only [updatePlayer, hpb, if_pos]
      rw [canonJoin_cons, canonJoin_cons, add_right_comm,
        canonMS_eraseP hex hc]
    · have hpb : (p.id == pid) = false := by simp [hp]
      rw [List.find?_cons, hpb] at hfound
      simp only [updatePlayer, hpb, Bool.false_eq_true, if_neg,
        not_false_eq_true]
      rw [canonJoin_cons, canonJoin_cons, add_assoc, ih hfound]

/-- Popping key `k` (present with value `t`) from the grid removes
exactly one copy of `t`'s canonical form from the grid multiset. -/
theorem canonMS_dictErase {l : List (Nat × Domino)} {k : Nat} {t : Domino}
    (h : dictLookup l k = some t) :
    canonMS ((dictErase l k).map Prod.snd) + {t.canon}
      = canonMS (l.map Prod.snd) := by
  induction l with
  | nil => simp [dictLookup] at h
  | cons e rest ih =>
    by_cases hk : e.1 = k
    · have hkb : (e.1 == k) = true := by simp [hk]
      simp only [dictLookup, List.find?_cons, hkb] at h
      have ht : e.2 = t := by simpa using h
      simp only [dictErase, List.eraseP_cons, hkb, cond_true]
      rw [List.map_cons, canonMS_cons, ht]
      abel
    · have hkb : (e.1 == k) = false := by simp [hk]
      simp only [dictLookup, List.find?_cons, hkb] at h
      simp only [dictErase, List.eraseP_cons, hkb, cond_false]
      rw [List.map_cons, List.map_cons, canonMS_cons, canonMS_cons,
        add_assoc]
      have := ih h
      simp only [dictErase] at this
      rw [this]

theorem canonMS_nil : canonMS [] = 0 := rfl

theorem canonJoin_clearHands (ps : List Player) :
    canonJoin (ps.map (fun p => { p with hand := [] })) = 0 := by
  induction ps with
  | nil => rfl
  | cons p rest ih => rw [List.map_cons, canonJoin_cons, ih, canonMS_nil]; rfl

theorem canon_flipped (d : Domino) : d.flipped.canon = d.canon := by
  simp [Domino.flipped, Domino.canon, Nat.min_comm, Nat.max_comm]

/-- `advance_turn` only rewrites `current_turn` / `turn_started_at`. -/
theorem advance_turn_frame (g : Game) (now : Int) :
    (advance_turn g now).players = g.players ∧
    (advance_turn g now).board = g.board ∧
    (advance_turn g now).boneyard = g.boneyard ∧
    (advance_turn g now).picking_tiles = g.picking_tiles ∧
    (advance_turn g now).ends = g.ends ∧
    (advance_turn g now).status = g.status ∧
    (advance_turn g now).winner_id = g.winner_id := by
  unfold advance_turn
  rcases g.current_turn with _ | t
  · exact ⟨rfl, rfl, rfl, rfl, rfl, rfl, rfl⟩
  · dsimp only
    split
    · exact ⟨rfl, rfl, rfl, rfl, rfl, rfl, rfl⟩
    · split <;> exact ⟨rfl, rfl, rfl, rfl, rfl, rfl, rfl⟩

/-- `check_game_over` only rewrites `status` / `winner_id`. -/
theorem check_game_over_frame (g : Game) :
    (check_game_over g).players = g.players ∧
    (check_game_over g).board = g.board ∧
    (check_game_over g).boneyard = g.boneyard ∧
    (check_game_over g).picking_tiles = g.picking_tiles ∧
    (check_game_over g).ends = g.ends ∧
    (check_game_over g).current_turn = g.current_turn := by
  unfold check_game_over
  split
  · exact ⟨rfl, rfl, rfl, rfl, rfl, rfl⟩
  · split
    · split <;> exact ⟨rfl, rfl, rfl, rfl, rfl, rfl⟩
    · exact ⟨rfl, rfl, rfl, rfl, rfl, rfl⟩

theorem check_game_over_status (g : Game) :
    (check_game_over g).status = g.status ∨
    (check_game_over g).status = .finished := by
  unfold check_game_over
  split
  · exact Or.inr rfl
  · split
    · split
      · exact Or.inl rfl
      · exact Or.inr rfl
    · exact Or.inl rfl

theorem tilesOf_congr {g₁ g₂ : Game} (hp : g₁.players = g₂.players)
    (hb : g₁.board = g₂.board) (hy : g₁.boneyard = g₂.boneyard)
    (hk : g₁.picking_tiles = g₂.picking_tiles) :
    tilesOf g₁ = tilesOf g₂ := by
  unfold tilesOf
  rw [hp, hb, hy, hk]

theorem tilesOf_advance_turn (g : Game) (now : Int) :
    tilesOf (advance_turn g now) = tilesOf g := by
  obtain ⟨h₁, h₂, h₃, h₄, _, _, _⟩ := advance_turn_frame g now
  exact tilesOf_congr h₁ h₂ h₃ h₄

theorem tilesOf_check_game_over (g : Game) :
    tilesOf (check_game_over g) = tilesOf g := by
  obtain ⟨h₁, h₂, h₃, h₄, _, _⟩ := check_game_over_frame g
  exact tilesOf_congr h₁ h₂ h₃ h₄

/-- `start_game` deals out the full 28-tile set and nothing else. -/
theorem tilesOf_start_game (g : Game) (ds : List Domino) (now : Int)
    (h : ds.Perm generate_domino_set) :
    tilesOf (start_game g ds now) = fullTiles := by
  unfold tilesOf start_game fullTiles
  dsimp only
  rw [canonJoin_clearHands, List.enum_map_snd]
  have : canonMS ds = canonMS generate_domino_set :=
    Multiset.coe_eq_coe.mpr (h.map Domino.canon)
  rw [this, canonMS_nil]
  simp [canonMS_nil, canonMS]

/-- With an empty boneyard (true throughout `PICKING`),
`start_playing_phase` just moves the remaining grid tiles into the
boneyard. -/
theorem tilesOf_start_playing_phase (g : Game) (sp : Option String)
    (now : Int) (hb : g.boneyard = []) :
    tilesOf (start_playing_phase g sp now) = tilesOf g := by
  unfold tilesOf start_playing_phase
  dsimp only
  rw [hb, canonMS_nil]
  simp only [List.map_nil, canonMS_nil]
  abel

/-- Moving one grid tile (at key `k`, value `tile`) into the hand of a
seated player preserves the tile multiset. -/
theorem tilesOf_moveTile {g : Game} {pid : String} {k : Nat} {tile : Domino}
    (hmem : ∃ p ∈ g.players, p.id = pid)
    (hlook : dictLookup g.picking_tiles k = some tile) :
    tilesOf { g with
      picking_tiles := dictErase g.picking_tiles k
      players := updatePlayer g.players pid (fun q =>
        { q with hand := q.hand ++ [tile] }) } = tilesOf g := by
  unfold tilesOf
  dsimp only
  rw [canonJoin_update_append tile hmem, ← canonMS_dictErase hlook]
  abel

theorem tilesOf_pass_turn (g : Game) (pid : String) (now : Int) :
    tilesOf (pass_turn g pid now).1 = tilesOf g := by
  unfold pass_turn
  split
  · rfl
  · split
    · rfl
    · split
      · rfl
      · dsimp only
        rw [tilesOf_check_game_over, tilesOf_advance_turn]

theorem tilesOf_claim_tile (g : Game) (pid : String) (pos : Nat) (now : Int)
    (hb : g.boneyard = []) :
    tilesOf (claim_tile g pid pos now).1 = tilesOf g := by
  unfold claim_tile
  split
  · rfl
  · split
    · rfl
    · next player hfound =>
      split
      · rfl
      · split
        · rfl
        · next tile hlook =>
          have hmem : ∃ p ∈ g.players, p.id = pid := by
            unfold Game.get_player at hfound
            exact ⟨player, List.mem_of_find?_eq_some hfound,
              by simpa using List.find?_some hfound⟩
          have key := tilesOf_moveTile hmem hlook
          dsimp only
          split
          · rw [tilesOf_start_playing_phase _ _ _ (by exact hb)]
            exact key
          · exact key

theorem canonMS_singleton (d : Domino) : canonMS [d] = {d.canon} := rfl

theorem tilesOf_cpu_claim_tile (g : Game) (pid : String) (choice : Nat)
    (now : Int) (hb : g.boneyard = []) :
    tilesOf (cpu_claim_tile g pid choice now).1 = tilesOf g := by
  unfold cpu_claim_tile
  split
  · rfl
  · split
    · rfl
    · split
      · rfl
      · split
        · rfl
        · split
          · rfl
          · exact tilesOf_claim_tile g pid _ now hb

/-- The auto-assign loop moves grid tiles into the named player's hand
and touches nothing else that carries tiles. -/
theorem autoAssignLoop_frame (pid : String) (choose : Nat → Nat) :
    ∀ (fuel : Nat) (g : Game) (step : Nat),
      tilesOf (autoAssignLoop g pid choose step fuel).1 = tilesOf g ∧
      (autoAssignLoop g pid choose step fuel).1.boneyard = g.boneyard ∧
      (autoAssignLoop g pid choose step fuel).1.status = g.status := by
  intro fuel
  induction fuel with
  | zero => intro g step; exact ⟨rfl, rfl, rfl⟩
  | succ fuel ih =>
    intro g step
    unfold autoAssignLoop
    split
    · exact ⟨rfl, rfl, rfl⟩
    · next player hfound =>
      split
      · dsimp only
        split
        · exact ⟨rfl, rfl, rfl⟩
        · next tile hlook =>
          dsimp only
          have hmem : ∃ p ∈ g.players, p.id = pid := by
            unfold Game.get_player at hfound
            exact ⟨player, List.mem_of_find?_eq_some hfound,
              by simpa using List.find?_some hfound⟩
          have key := tilesOf_moveTile hmem hlook
          obtain ⟨h₁, h₂, h₃⟩ := ih _ (step + 1)
          exact ⟨by rw [h₁, key], h₂, h₃⟩
      · exact ⟨rfl, rfl, rfl⟩

theorem tilesOf_auto_assign (g : Game) (pid : String) (choose : Nat → Nat)
    (now : Int) (hb : g.boneyard = []) :
    tilesOf (auto_assign_remaining_tiles g pid choose now).1 = tilesOf g := by
  unfold auto_assign_remaining_tiles
  split
  · rfl
  · dsimp only
    obtain ⟨h₁, h₂, _⟩ :=
      autoAssignLoop_frame pid choose g.picking_tiles.length g 0
    split
    · rw [tilesOf_start_playing_phase _ _ _ (h₂.trans hb)]
      exact h₁
    · exact h₁

theorem tilesOf_play_tile (g : Game) (pid : String) (d : Domino)
    (side : String) (now : Int) :
    tilesOf (play_tile g pid d side now).1 = tilesOf g := by
  unfold play_tile
  split
  · rfl
  · split
    · rfl
    · split
      · rfl
      · next player hfound =>
        split
        · rfl
        · next hand_domino hfind =>
          have hfound' : g.players.find? (fun p => p.id == pid) = some player := hfound
          have hex : ∃ x ∈ player.hand, x.dEq hand_domino = true :=
            ⟨hand_domino, List.mem_of_find?_eq_some hfind, dEq_refl _⟩
          have hdq : hand_domino.dEq d = true := by
            simpa using List.find?_some hfind
          have hcanon : hand_domino.canon = d.canon := dEq_canon hdq
          have herase := canonJoin_update_erase (q := fun h => h.dEq hand_domino)
            (c := hand_domino.canon) hfound' hex (fun x hx => dEq_canon hx)
          split
          · -- first tile on an empty board
            dsimp only
            rw [tilesOf_check_game_over, tilesOf_advance_turn]
            unfold tilesOf
            dsimp only
            rw [List.map_append, List.map_singleton, canonMS_append,
              canonMS_singleton]
            dsimp only
            rw [← hcanon]
            calc canonJoin (updatePlayer g.players pid _) + canonMS g.boneyard +
                  (canonMS (g.board.map PlayedDomino.domino) + {hand_domino.canon}) +
                  canonMS (g.picking_tiles.map Prod.snd)
                = (canonJoin (updatePlayer g.players pid _) + {hand_domino.canon}) +
                  canonMS g.boneyard + canonMS (g.board.map PlayedDomino.domino) +
                  canonMS (g.picking_tiles.map Prod.snd) := by abel
              _ = _ := by rw [herase]
          · split
            · split
              · rfl
              · -- play on the left
                dsimp only
                rw [tilesOf_check_game_over, tilesOf_advance_turn]
                unfold tilesOf
                dsimp only
                rw [List.map_cons, canonMS_cons]
                have hpd : (if g.ends.left == some d.right then d else d.flipped).canon
                    = hand_domino.canon := by
                  rw [hcanon]
                  split
                  · rfl
                  · exact canon_flipped d
                rw [hpd]
                calc canonJoin (updatePlayer g.players pid _) + canonMS g.boneyard +
                      ({hand_domino.canon} + canonMS (g.board.map PlayedDomino.domino)) +
                      canonMS (g.picking_tiles.map Prod.snd)
                    = (canonJoin (updatePlayer g.players pid _) + {hand_domino.canon}) +
                      canonMS g.boneyard + canonMS (g.board.map PlayedDomino.domino) +
                      canonMS (g.picking_tiles.map Prod.snd) := by abel
                  _ = _ := by rw [herase]
            · split
              · split
                · rfl
                · -- play on the right
                  dsimp only
                  rw [tilesOf_check_game_over, tilesOf_advance_turn]
                  unfold tilesOf
                  dsimp only
                  rw [List.map_append, List.map_singleton, canonMS_append,
                    canonMS_singleton]
                  dsimp only
                  have hpd : (if g.ends.right == some d.left then d else d.flipped).canon
                      = hand_domino.canon := by
                    rw [hcanon]
                    split
                    · rfl
                    · exact canon_flipped d
                  rw [hpd]
                  calc canonJoin (updatePlayer g.players pid _) + canonMS g.boneyard +
                        (canonMS (g.board.map PlayedDomino.domino) + {hand_domino.canon}) +
                        canonMS (g.picking_tiles.map Prod.snd)
                      = (canonJoin (updatePlayer g.players pid _) + {hand_domino.canon}) +
                        canonMS g.boneyard + canonMS (g.board.map PlayedDomino.domino) +
                        canonMS (g.picking_tiles.map Prod.snd) := by abel
                    _ = _ := by rw [herase]
              · rfl

/-! ## Structural case lemmas for the operations -/

theorem start_playing_phase_status (g : Game) (sp : Option String)
    (now : Int) : (start_playing_phase g sp now).status = .playing := rfl

theorem start_playing_phase_picking (g : Game) (sp : Option String)
    (now : Int) : (start_playing_phase g sp now).picking_tiles = [] := rfl

theorem start_playing_phase_players (g : Game) (sp : Option String)
    (now : Int) : (start_playing_phase g sp now).players = g.players := rfl

theorem claim_tile_of_not_picking {g : Game} (pid : String) (pos : Nat)
    (now : Int) (h : g.status ≠ .picking) :
    (claim_tile g pid pos now).1 = g := by
  unfold claim_tile
  rw [if_pos h]

theorem cpu_claim_tile_of_not_picking {g : Game} (pid : String)
    (choice : Nat) (now : Int) (h : g.status ≠ .picking) :
    (cpu_claim_tile g pid choice now).1 = g := by
  unfold cpu_claim_tile
  rw [if_pos h]

theorem play_tile_of_not_playing {g : Game} (pid : String) (d : Domino)
    (side : String) (now : Int) (h : g.status ≠ .playing) :
    (play_tile g pid d side now).1 = g := by
  unfold play_tile
  rw [if_pos h]

theorem pass_turn_of_not_playing {g : Game} (pid : String) (now : Int)
    (h : g.status ≠ .playing) : (pass_turn g pid now).1 = g := by
  unfold pass_turn
  rw [if_pos h]

/-- The state update shared by the success path of `claim_tile` (and of
the auto-assign loop body): pop the grid tile, append it to the hand. -/
def claimUpd (g : Game) (pid : String) (pos : Nat) (tile : Domino) : Game :=
  { g with
    picking_tiles := dictErase g.picking_tiles pos
    players := updatePlayer g.players pid (fun p =>
      { p with hand := p.hand ++ [tile] }) }

theorem claim_tile_cases (g : Game) (pid : String) (pos : Nat) (now : Int) :
    (claim_tile g pid pos now).1 = g ∨
    (g.status = .picking ∧ ∃ player tile,
      g.get_player pid = some player ∧
      dictLookup g.picking_tiles pos = some tile ∧
      ((¬ check_picking_complete (claimUpd g pid pos tile) = true ∧
        (claim_tile g pid pos now).1 = claimUpd g pid pos tile) ∨
       (check_picking_complete (claimUpd g pid pos tile) = true ∧
        (claim_tile g pid pos now).1 =
          start_playing_phase (claimUpd g pid pos tile) none now))) := by
  unfold claim_tile
  split
  · exact Or.inl rfl
  · next hst =>
    split
    · exact Or.inl rfl
    · next player hfound =>
      split
      · exact Or.inl rfl
      · split
        · exact Or.inl rfl
        · next tile hlook =>
          dsimp only
          split
          · next hc =>
            exact Or.inr ⟨not_not.mp hst, player, tile, hfound, hlook,
              Or.inr ⟨hc, rfl⟩⟩
          · next hc =>
            exact Or.inr ⟨not_not.mp hst, player, tile, hfound, hlook,
              Or.inl ⟨hc, rfl⟩⟩

/-- `updatePlayer` with an id-preserving `f` leaves the seat id roster
unchanged. -/
theorem updatePlayer_map_id (ps : List Player) (pid : String)
    (f : Player → Player) (hf : ∀ p, (f p).id = p.id) :
    (updatePlayer ps pid f).map Player.id = ps.map Player.id := by
  induction ps with
  | nil => rfl
  | cons p rest ih =>
    unfold updatePlayer
    split
    · simp [hf]
    · simp [ih]

/-- `updatePlayer` with a name-preserving `f` leaves the seat name
roster unchanged. -/
theorem updatePlayer_map_name (ps : List Player) (pid : String)
    (f : Player → Player) (hf : ∀ p, (f p).name = p.name) :
    (updatePlayer ps pid f).map Player.name = ps.map Player.name := by
  induction ps with
  | nil => rfl
  | cons p rest ih =>
    unfold updatePlayer
    split
    · simp [hf]
    · simp [ih]

theorem updatePlayer_length (ps : List Player) (pid : String)
    (f : Player → Player) : (updatePlayer ps pid f).length = ps.length := by
  induction ps with
  | nil => rfl
  | cons p rest ih =>
    unfold updatePlayer
    split
    · rfl
    · simpa using ih

theorem claimUpd_map_id (g : Game) (pid : String) (pos : Nat) (tile : Domino) :
    (claimUpd g pid pos tile).players.map Player.id =
      g.players.map Player.id := by
  unfold claimUpd
  exact updatePlayer_map_id _ _ _ (fun _ => rfl)

theorem pass_turn_cases (g : Game) (pid : String) (now : Int) :
    (pass_turn g pid now).1 = g ∨
    (g.status = .playing ∧ g.current_turn = some pid ∧
     (pass_turn g pid now).1 = check_game_over (advance_turn g now)) := by
  unfold pass_turn
  split
  · exact Or.inl rfl
  · next hst =>
    split
    · exact Or.inl rfl
    · next hct =>
      split
      · exact Or.inl rfl
      · exact Or.inr ⟨not_not.mp hst, not_not.mp hct, rfl⟩

theorem play_tile_cases (g : Game) (pid : String) (d : Domino)
    (side : String) (now : Int) :
    (play_tile g pid d side now).1 = g ∨
    (g.status = .playing ∧ g.current_turn = some pid ∧
     (g.get_player pid).isSome ∧
     ∃ g₁ : Game,
       (play_tile g pid d side now).1 = check_game_over (advance_turn g₁ now) ∧
       g₁.status = .playing ∧ g₁.current_turn = some pid ∧
       g₁.players.map Player.id = g.players.map Player.id ∧
       g₁.picking_tiles = g.picking_tiles ∧
       g₁.boneyard = g.boneyard ∧
       g₁.players.map Player.name = g.players.map Player.name ∧
       g₁.players.length = g.players.length ∧
       g₁.max_players = g.max_players) := by
  unfold play_tile
  split
  · exact Or.inl rfl
  · next hst =>
    split
    · exact Or.inl rfl
    · next hct =>
      split
      · exact Or.inl rfl
      · next player hfound =>
        split
        · exact Or.inl rfl
        · next hand_domino hfind =>
          have hst' := not_not.mp hst
          have hct' := not_not.mp hct
          have hids : ∀ (q : Domino → Bool),
              (updatePlayer g.players pid (fun p =>
                { p with hand := p.hand.eraseP q })).map Player.id =
              g.players.map Player.id :=
            fun q => updatePlayer_map_id _ _ _ (fun _ => rfl)
          have hnms : ∀ (q : Domino → Bool),
              (updatePlayer g.players pid (fun p =>
                { p with hand := p.hand.eraseP q })).map Player.name =
              g.players.map Player.name :=
            fun q => updatePlayer_map_name _ _ _ (fun _ => rfl)
          have hlns : ∀ (q : Domino → Bool),
              (updatePlayer g.players pid (fun p =>
                { p with hand := p.hand.eraseP q })).length =
              g.players.length :=
            fun q => updatePlayer_length _ _ _
          split
          · exact Or.inr ⟨hst', hct', by rw [hfound]; rfl,
              _, rfl, hst', hct', hids _, rfl, rfl, hnms _, hlns _, rfl⟩
          · split
            · split
              · exact Or.inl rfl
              · exact Or.inr ⟨hst', hct', by rw [hfound]; rfl,
                  _, rfl, hst', hct', hids _, rfl, rfl, hnms _, hlns _, rfl⟩
            · split
              · split
                · exact Or.inl rfl
                · exact Or.inr ⟨hst', hct', by rw [hfound]; rfl,
                    _, rfl, hst', hct', hids _, rfl, rfl, hnms _, hlns _, rfl⟩
              · exact Or.inl rfl

/-! ## `find_starting_player`: soundness and completeness -/

theorem fspDoubleStep_cases (pid : String) (acc : Int × Option String)
    (d : Domino) :
    fspDoubleStep pid acc d = acc ∨ (fspDoubleStep pid acc d).2 = some pid := by
  unfold fspDoubleStep
  split
  · exact Or.inr rfl
  · exact Or.inl rfl

theorem fspTotalStep_cases (pid : String) (acc : Int × Option String)
    (d : Domino) :
    fspTotalStep pid acc d = acc ∨ (fspTotalStep pid acc d).2 = some pid := by
  unfold fspTotalStep
  split
  · exact Or.inr rfl
  · exact Or.inl rfl

theorem foldl_step_snd {pid : String}
    {f : (Int × Option String) → Domino → (Int × Option String)}
    (hf : ∀ acc d, f acc d = acc ∨ (f acc d).2 = some pid) :
    ∀ (hand : List Domino) (acc),
      (hand.foldl f acc).2 = acc.2 ∨ (hand.foldl f acc).2 = some pid := by
  intro hand
  induction hand with
  | nil => intro acc; exact Or.inl rfl
  | cons d rest ih =>
    intro acc
    rw [List.foldl_cons]
    rcases hf acc d with h | h
    · rw [h]; exact ih acc
    · rcases ih (f acc d) with h₂ | h₂
      · exact Or.inr (h₂.trans h)
      · exact Or.inr h₂

/-- Outer accumulating pass: the result either keeps the incoming best
id or reports some seated player's id. -/
theorem foldl_outer_sound
    (step : String → (Int × Option String) → Domino → (Int × Option String))
    (hstep : ∀ pid acc d, step pid acc d = acc ∨ (step pid acc d).2 = some pid) :
    ∀ (ps : List Player) (acc : Int × Option String),
      (ps.foldl (fun acc p => p.hand.foldl (step p.id) acc) acc).2 = acc.2 ∨
      ∃ p ∈ ps,
        (ps.foldl (fun acc p => p.hand.foldl (step p.id) acc) acc).2 = some p.id := by
  intro ps
  induction ps with
  | nil => intro acc; exact Or.inl rfl
  | cons q rest ih =>
    intro acc
    rw [List.foldl_cons]
    rcases ih (q.hand.foldl (step q.id) acc) with h | h
    · rcases foldl_step_snd (hstep q.id) q.hand acc with h₂ | h₂
      · exact Or.inl (h.trans h₂)
      · exact Or.inr ⟨q, List.mem_cons_self _ _, h.trans h₂⟩
    · rcases h with ⟨p, hp, hid⟩
      exact Or.inr ⟨p, List.mem_cons_of_mem _ hp, hid⟩

theorem fspTotalStep_isSome {pid : String} {acc : Int × Option String}
    (d : Domino) (h : acc.2.isSome) : ((fspTotalStep pid acc d).2).isSome := by
  unfold fspTotalStep
  split
  · rfl
  · exact h

theorem foldl_totalStep_isSome {pid : String} :
    ∀ (hand : List Domino) {acc : Int × Option String}, acc.2.isSome →
      ((hand.foldl (fspTotalStep pid) acc).2).isSome := by
  intro hand
  induction hand with
  | nil => intro acc h; exact h
  | cons d rest ih =>
    intro acc h
    rw [List.foldl_cons]
    exact ih (fspTotalStep_isSome d h)

theorem fspTotalStep_R {pid : String} {acc : Int × Option String}
    (d : Domino) (h : acc.1 < 0 ∨ acc.2.isSome) :
    (fspTotalStep pid acc d).1 < 0 ∨ ((fspTotalStep pid acc d).2).isSome := by
  unfold fspTotalStep
  split
  · exact Or.inr rfl
  · exact h

theorem foldl_totalStep_R {pid : String} :
    ∀ (hand : List Domino) {acc : Int × Option String},
      (acc.1 < 0 ∨ acc.2.isSome) →
      ((hand.foldl (fspTotalStep pid) acc).1 < 0 ∨
       ((hand.foldl (fspTotalStep pid) acc).2).isSome) := by
  intro hand
  induction hand with
  | nil => intro acc h; exact h
  | cons d rest ih =>
    intro acc h
    rw [List.foldl_cons]
    exact ih (fspTotalStep_R d h)

/-- Any nonempty hand forces the second pass to record an id: every
pip total is `≥ 0 > best_total` when no tile has been seen yet. -/
theorem foldl_totalStep_progress {pid : String} :
    ∀ (hand : List Domino) {acc : Int × Option String}, hand ≠ [] →
      (acc.1 < 0 ∨ acc.2.isSome) →
      ((hand.foldl (fspTotalStep pid) acc).2).isSome := by
  intro hand
  cases hand with
  | nil => intro _ h; exact absurd rfl h
  | cons d rest =>
    intro acc _ hR
    rw [List.foldl_cons]
    rcases hR with h | h
    · have : fspTotalStep pid acc d = ((d.total : Int), some pid) := by
        unfold fspTotalStep
        rw [if_pos]
        exact decide_eq_true (lt_of_lt_of_le h (Int.ofNat_nonneg _))
      rw [this]
      exact foldl_totalStep_isSome rest rfl
    · exact foldl_totalStep_isSome rest (fspTotalStep_isSome d h)

theorem outer_totalStep_R :
    ∀ (ps : List Player) {acc : Int × Option String},
      (acc.1 < 0 ∨ acc.2.isSome) →
      ((ps.foldl (fun acc p => p.hand.foldl (fspTotalStep p.id) acc) acc).1 < 0 ∨
       ((ps.foldl (fun acc p => p.hand.foldl (fspTotalStep p.id) acc) acc).2).isSome) := by
  intro ps
  induction ps with
  | nil => intro acc h; exact h
  | cons q rest ih =>
    intro acc h
    rw [List.foldl_cons]
    exact ih (foldl_totalStep_R q.hand h)

theorem outer_totalStep_isSome_mono :
    ∀ (ps : List Player) {acc : Int × Option String}, acc.2.isSome →
      ((ps.foldl (fun acc p => p.hand.foldl (fspTotalStep p.id) acc) acc).2).isSome := by
  intro ps
  induction ps with
  | nil => intro acc h; exact h
  | cons q rest ih =>
    intro acc h
    rw [List.foldl_cons]
    exact ih (foldl_totalStep_isSome q.hand h)

theorem outer_totalStep_complete :
    ∀ (ps : List Player) {acc : Int × Option String},
      (acc.1 < 0 ∨ acc.2.isSome) → (∃ p ∈ ps, p.hand ≠ []) →
      ((ps.foldl (fun acc p => p.hand.foldl (fspTotalStep p.id) acc) acc).2).isSome := by
  intro ps
  induction ps with
  | nil =>
    intro acc _ hex
    simp at hex
  | cons q rest ih =>
    intro acc hR hex
    rw [List.foldl_cons]
    rcases hex with ⟨p, hp, hh⟩
    rcases List.mem_cons.mp hp with rfl | hp'
    · exact outer_totalStep_isSome_mono rest
        (foldl_totalStep_progress p.hand hh hR)
    · exact ih (foldl_totalStep_R q.hand hR) ⟨p, hp', hh⟩

/-- `find_starting_player` only ever returns a seated player's id. -/
theorem find_starting_player_sound {g : Game} {x : String}
    (h : find_starting_player g = some x) : ∃ p ∈ g.players, x = p.id := by
  unfold find_starting_player at h
  dsimp only at h
  split at h
  · next pid hfst =>
    rcases foldl_outer_sound fspDoubleStep fspDoubleStep_cases g.players
        ((-1 : Int), none) with hc | hc
    · rw [hfst] at hc
      simp at hc
    · rcases hc with ⟨p, hp, hid⟩
      rw [hfst] at hid
      injection h with h
      subst h
      injection hid with hid
      exact ⟨p, hp, hid⟩
  · rcases foldl_outer_sound fspTotalStep fspTotalStep_cases g.players
        ((-1 : Int), none) with hc | hc
    · rw [h] at hc
      simp at hc
    · rcases hc with ⟨p, hp, hid⟩
      rw [h] at hid
      injection hid with hid
      exact ⟨p, hp, hid⟩

/-- If any seated hand is nonempty, `find_starting_player` names a
seated player. -/
theorem find_starting_player_seated {g : Game}
    (hex : ∃ p ∈ g.players, p.hand ≠ []) :
    ∃ p ∈ g.players, find_starting_player g = some p.id := by
  have hsome : (find_starting_player g).isSome := by
    unfold find_starting_player
    dsimp only
    split
    · rfl
    · next hfst =>
      exact outer_totalStep_complete g.players (Or.inl (by norm_num)) hex
  rcases Option.isSome_iff_exists.mp hsome with ⟨x, hx⟩
  rcases find_starting_player_sound hx with ⟨p, hp, rfl⟩
  exact ⟨p, hp, hx⟩

/-! ## The round invariant -/

theorem mem_ids_iff {x : String} {ps : List Player} :
    x ∈ ps.map Player.id ↔ ∃ p ∈ ps, x = p.id := by
  simp only [List.mem_map]
  constructor
  · rintro ⟨p, hp, rfl⟩; exact ⟨p, hp, rfl⟩
  · rintro ⟨p, hp, rfl⟩; exact ⟨p, hp, rfl⟩

theorem check_picking_complete_nonempty_hand {g : Game}
    (hc : check_picking_complete g = true) (hne : g.players ≠ []) :
    ∃ p ∈ g.players, p.hand ≠ [] := by
  cases hps : g.players with
  | nil => exact absurd hps hne
  | cons p rest =>
    refine ⟨p, by simp [hps], ?_⟩
    unfold check_picking_complete at hc
    rw [hps, List.all_cons, Bool.and_eq_true] at hc
    intro hnil
    rw [hnil] at hc
    simp at hc

theorem find_starting_player_congr {g₁ g₂ : Game}
    (h : g₁.players = g₂.players) :
    find_starting_player g₁ = find_starting_player g₂ := by
  unfold find_starting_player
  rw [h]

theorem start_playing_phase_current_none (g : Game) (now : Int) :
    (start_playing_phase g none now).current_turn =
      find_starting_player g := by
  unfold start_playing_phase
  dsimp only
  exact find_starting_player_congr rfl

/-- After `advance_turn`, the current turn is still a seated player's
id whenever it was one before. -/
theorem advance_turn_seated {g : Game} {now : Int}
    (h : ∃ x, g.current_turn = some x ∧ x ∈ g.players.map Player.id) :
    ∃ p ∈ g.players, (advance_turn g now).current_turn = some p.id := by
  rcases h with ⟨x, hct, hxm⟩
  rcases mem_ids_iff.mp hxm with ⟨p₀, hp₀, rfl⟩
  unfold advance_turn
  rw [hct]
  dsimp only
  split
  · exact ⟨p₀, hp₀, hct⟩
  · split
    · next q hq =>
      exact ⟨q, List.getElem?_mem hq, rfl⟩
    · exact ⟨p₀, hp₀, hct⟩

/-- The invariant holding of every state of a round between
`start_game` and the next reset. -/
def GameInv (g : Game) : Prop :=
  tilesOf g = fullTiles ∧
  (g.status = .picking → g.boneyard = []) ∧
  (g.status ≠ .picking → g.picking_tiles = []) ∧
  (g.status = .picking → g.current_turn = none) ∧
  (g.status = .playing → ∃ p ∈ g.players, g.current_turn = some p.id)

theorem gameInv_start_game (g : Game) (ds : List Domino) (now : Int)
    (hperm : ds.Perm generate_domino_set) :
    GameInv (start_game g ds now) := by
  refine ⟨tilesOf_start_game g ds now hperm, fun _ => rfl, fun h => ?_,
    fun _ => rfl, fun h => ?_⟩
  · exact absurd rfl h
  · exact absurd (show GameStatus.picking = .playing from h) (by decide)

theorem tilesOf_claimUpd {g : Game} {pid : String} {pos : Nat}
    {tile : Domino} (hmem : ∃ p ∈ g.players, p.id = pid)
    (hlook : dictLookup g.picking_tiles pos = some tile) :
    tilesOf (claimUpd g pid pos tile) = tilesOf g :=
  tilesOf_moveTile hmem hlook

theorem gameInv_claim_tile (g : Game) (pid : String) (pos : Nat)
    (now : Int) (ih : GameInv g) : GameInv ((claim_tile g pid pos now).1) := by
  obtain ⟨ihA, ihB, ihC, ihD, ihE⟩ := ih
  rcases claim_tile_cases g pid pos now with h | ⟨hst, player, tile, hfound,
    hlook, hbr⟩
  · rw [h]; exact ⟨ihA, ihB, ihC, ihD, ihE⟩
  · have hmem : ∃ p ∈ g.players, p.id = pid := by
      unfold Game.get_player at hfound
      exact ⟨player, List.mem_of_find?_eq_some hfound,
        by simpa using List.find?_some hfound⟩
    have hUst : (claimUpd g pid pos tile).status = .picking := hst
    have hUb : (claimUpd g pid pos tile).boneyard = [] := ihB hst
    rcases hbr with ⟨hnc, heq⟩ | ⟨hc, heq⟩
    · rw [heq]
      refine ⟨(tilesOf_claimUpd hmem hlook).trans ihA, fun _ => hUb,
        fun h => absurd hUst h, fun _ => ihD hst, fun h => ?_⟩
      · rw [hUst] at h
        exact absurd h (by decide)
    · rw [heq]
      refine ⟨(tilesOf_start_playing_phase _ _ _ hUb).trans
          ((tilesOf_claimUpd hmem hlook).trans ihA), ?_, ?_, ?_, ?_⟩
      · intro h
        rw [start_playing_phase_status] at h
        exact absurd h (by decide)
      · intro _
        exact start_playing_phase_picking _ _ _
      · intro h
        rw [start_playing_phase_status] at h
        exact absurd h (by decide)
      · intro _
        have hne : (claimUpd g pid pos tile).players ≠ [] := by
          unfold claimUpd
          dsimp only
          intro hcon
          have := updatePlayer_length g.players pid (fun p =>
            { p with hand := p.hand ++ [tile] })
          rw [hcon] at this
          rcases hmem with ⟨p, hp, _⟩
          rw [List.eq_nil_of_length_eq_zero this.symm] at hp
          simp at hp
        rcases find_starting_player_seated
            (check_picking_complete_nonempty_hand hc hne) with ⟨p, hp, hfind⟩
        refine ⟨p, by rw [start_playing_phase_players]; exact hp, ?_⟩
        rw [start_playing_phase_current_none]
        exact hfind

theorem cpu_claim_tile_cases (g : Game) (pid : String) (choice : Nat)
    (now : Int) :
    (cpu_claim_tile g pid choice now).1 = g ∨
    ∃ k, (cpu_claim_tile g pid choice now).1 = (claim_tile g pid k now).1 := by
  unfold cpu_claim_tile
  split
  · exact Or.inl rfl
  · split
    · exact Or.inl rfl
    · split
      · exact Or.inl rfl
      · split
        · exact Or.inl rfl
        · split
          · exact Or.inl rfl
          · exact Or.inr ⟨_, rfl⟩

theorem gameInv_cpu_claim_tile (g : Game) (pid : String) (choice : Nat)
    (now : Int) (ih : GameInv g) :
    GameInv ((cpu_claim_tile g pid choice now).1) := by
  rcases cpu_claim_tile_cases g pid choice now with h | ⟨k, h⟩
  · rw [h]; exact ih
  · rw [h]; exact gameInv_claim_tile g pid k now ih

theorem gameInv_pass_turn (g : Game) (pid : String) (now : Int)
    (ih : GameInv g) : GameInv ((pass_turn g pid now).1) := by
  obtain ⟨ihA, ihB, ihC, ihD, ihE⟩ := ih
  rcases pass_turn_cases g pid now with h | ⟨hst, hct, heq⟩
  · rw [h]; exact ⟨ihA, ihB, ihC, ihD, ihE⟩
  · rw [heq]
    obtain ⟨afP, afB, afY, afK, _, afS, _⟩ := advance_turn_frame g now
    obtain ⟨cfP, cfB, cfY, cfK, _, cfT⟩ :=
      check_game_over_frame (advance_turn g now)
    have hstat : (check_game_over (advance_turn g now)).status = .playing ∨
        (check_game_over (advance_turn g now)).status = .finished := by
      rcases check_game_over_status (advance_turn g now) with h | h
      · exact Or.inl (by rw [h, afS, hst])
      · exact Or.inr h
    have hnp : (check_game_over (advance_turn g now)).status ≠ .picking := by
      rcases hstat with h | h <;> rw [h] <;> decide
    refine ⟨by rw [tilesOf_check_game_over, tilesOf_advance_turn]; exact ihA,
      fun h => absurd h hnp, fun _ => ?_, fun h => absurd h hnp, fun _ => ?_⟩
    · rw [cfK, afK]
      exact ihC (by rw [hst]; decide)
    · rw [cfT, cfP, afP]
      refine advance_turn_seated ⟨pid, hct, ?_⟩
      rcases ihE hst with ⟨p, hp, hpct⟩
      rw [hct] at hpct
      injection hpct with hpct
      rw [hpct]
      exact mem_ids_iff.mpr ⟨p, hp, rfl⟩

theorem gameInv_play_tile (g : Game) (pid : String) (d : Domino)
    (side : String) (now : Int) (ih : GameInv g) :
    GameInv ((play_tile g pid d side now).1) := by
  obtain ⟨ihA, ihB, ihC, ihD, ihE⟩ := ih
  rcases play_tile_cases g pid d side now with h | ⟨hst, hct, hpl, g₁, heq,
    hg₁st, hg₁ct, hids, hpick, hbone, -, -, -⟩
  · rw [h]; exact ⟨ihA, ihB, ihC, ihD, ihE⟩
  · rw [heq]
    obtain ⟨afP, afB, afY, afK, _, afS, _⟩ := advance_turn_frame g₁ now
    obtain ⟨cfP, cfB, cfY, cfK, _, cfT⟩ :=
      check_game_over_frame (advance_turn g₁ now)
    have hstat : (check_game_over (advance_turn g₁ now)).status = .playing ∨
        (check_game_over (advance_turn g₁ now)).status = .finished := by
      rcases check_game_over_status (advance_turn g₁ now) with h | h
      · exact Or.inl (by rw [h, afS, hg₁st])
      · exact Or.inr h
    have hnp : (check_game_over (advance_turn g₁ now)).status ≠ .picking := by
      rcases hstat with h | h <;> rw [h] <;> decide
    have hA : tilesOf ((play_tile g pid d side now).1) = fullTiles := by
      rw [tilesOf_play_tile]; exact ihA
    rw [heq] at hA
    refine ⟨hA, fun h => absurd h hnp, fun _ => ?_, fun h => absurd h hnp,
      fun _ => ?_⟩
    · rw [cfK, afK, hpick]
      exact ihC (by rw [hst]; decide)
    · rw [cfT, cfP, afP]
      refine advance_turn_seated ⟨pid, hg₁ct, ?_⟩
      rw [hids]
      rcases Option.isSome_iff_exists.mp hpl with ⟨p, hp⟩
      unfold Game.get_player at hp
      refine mem_ids_iff.mpr ⟨p, List.mem_of_find?_eq_some hp, ?_⟩
      have h2 : p.id = pid := by simpa using List.find?_some hp
      exact h2.symm

theorem autoAssignLoop_frame2 (pid : String) (choose : Nat → Nat) :
    ∀ (fuel : Nat) (g : Game) (step : Nat),
      (autoAssignLoop g pid choose step fuel).1.current_turn =
        g.current_turn ∧
      (autoAssignLoop g pid choose step fuel).1.players.map Player.id =
        g.players.map Player.id := by
  intro fuel
  induction fuel with
  | zero => intro g step; exact ⟨rfl, rfl⟩
  | succ fuel ih =>
    intro g step
    unfold autoAssignLoop
    split
    · exact ⟨rfl, rfl⟩
    · next player hfound =>
      split
      · dsimp only
        split
        · exact ⟨rfl, rfl⟩
        · next tile hlook =>
          dsimp only
          obtain ⟨h₁, h₂⟩ := ih _ (step + 1)
          refine ⟨h₁, h₂.trans ?_⟩
          exact updatePlayer_map_id _ _ _ (fun _ => rfl)
      · exact ⟨rfl, rfl⟩

theorem auto_assign_structure (g : Game) (pid : String) (choose : Nat → Nat)
    (now : Int) :
    (auto_assign_remaining_tiles g pid choose now).1 = g ∨
    ((g.get_player pid).isSome ∧
     ((¬ check_picking_complete
          (autoAssignLoop g pid choose 0 g.picking_tiles.length).1 = true ∧
       (auto_assign_remaining_tiles g pid choose now).1 =
         (autoAssignLoop g pid choose 0 g.picking_tiles.length).1) ∨
      (check_picking_complete
          (autoAssignLoop g pid choose 0 g.picking_tiles.length).1 = true ∧
       (auto_assign_remaining_tiles g pid choose now).1 =
         start_playing_phase
           (autoAssignLoop g pid choose 0 g.picking_tiles.length).1
           none now))) := by
  unfold auto_assign_remaining_tiles
  split
  · exact Or.inl rfl
  · next p hp =>
    dsimp only
    split
    · next hc => exact Or.inr ⟨by rw [hp]; rfl, Or.inr ⟨hc, rfl⟩⟩
    · next hc => exact Or.inr ⟨by rw [hp]; rfl, Or.inl ⟨hc, rfl⟩⟩

theorem gameInv_auto_assign (g : Game) (pid : String) (choose : Nat → Nat)
    (now : Int)
    (hsmall : ∀ p, g.get_player pid = some p → p.hand.length < 6)
    (ih : GameInv g) :
    GameInv ((auto_assign_remaining_tiles g pid choose now).1) := by
  obtain ⟨ihA, ihB, ihC, ihD, ihE⟩ := ih
  rcases auto_assign_structure g pid choose now with h | ⟨hpl, hbr⟩
  · rw [h]; exact ⟨ihA, ihB, ihC, ihD, ihE⟩
  · rcases Option.isSome_iff_exists.mp hpl with ⟨player, hfound⟩
    by_cases hst : g.status = .picking
    · -- during PICKING the boneyard is empty; the loop moves grid
      -- tiles into hands, then possibly starts the playing phase
      have hb := ihB hst
      obtain ⟨hT, hBy, hSt⟩ :=
        autoAssignLoop_frame pid choose g.picking_tiles.length g 0
      obtain ⟨hCt, hIds⟩ :=
        autoAssignLoop_frame2 pid choose g.picking_tiles.length g 0
      set gL := (autoAssignLoop g pid choose 0 g.picking_tiles.length).1
      rcases hbr with ⟨hnc, heq⟩ | ⟨hc, heq⟩
      · rw [heq]
        have hLst : gL.status = .picking := by rw [hSt, hst]
        refine ⟨by rw [hT]; exact ihA, fun _ => by rw [hBy]; exact hb,
          fun h => absurd hLst h, fun _ => by rw [hCt]; exact ihD hst,
          fun h => ?_⟩
        · rw [hLst] at h
          exact absurd h (by decide)
      · rw [heq]
        have hLb : gL.boneyard = [] := by rw [hBy]; exact hb
        refine ⟨(tilesOf_start_playing_phase _ _ _ hLb).trans
            (by rw [hT]; exact ihA), ?_, ?_, ?_, ?_⟩
        · intro h
          rw [start_playing_phase_status] at h
          exact absurd h (by decide)
        · intro _
          exact start_playing_phase_picking _ _ _
        · intro h
          rw [start_playing_phase_status] at h
          exact absurd h (by decide)
        · intro _
          have hne : gL.players ≠ [] := by
            intro hcon
            have : gL.players.map Player.id = [] := by rw [hcon]; rfl
            rw [hIds] at this
            unfold Game.get_player at hfound
            have hm := List.mem_of_find?_eq_some hfound
            rw [List.map_eq_nil_iff] at this
            rw [this] at hm
            simp at hm
          rcases find_starting_player_seated
              (check_picking_complete_nonempty_hand hc hne) with ⟨p, hp, hfind⟩
          refine ⟨p, by rw [start_playing_phase_players]; exact hp, ?_⟩
          rw [start_playing_phase_current_none]
          exact hfind
    · -- outside PICKING the grid is empty, so the loop is a no-op and
      -- the player still lacking tiles blocks the completeness check
      have hpt := ihC hst
      have hlen : g.picking_tiles.length = 0 := by rw [hpt]; rfl
      have hloop : (autoAssignLoop g pid choose 0 g.picking_tiles.length).1 = g := by
        rw [hlen]
        rfl
      have hncg : ¬ check_picking_complete g = true := by
        unfold check_picking_complete
        intro hall
        unfold Game.get_player at hfound
        have hm := List.mem_of_find?_eq_some hfound
        have := List.all_eq_true.mp hall player hm
        have hlt := hsmall player (by exact hfound)
        simp only [decide_eq_true_eq] at this
        omega
      rcases hbr with ⟨_, heq⟩ | ⟨hc, _⟩
      · rw [heq, hloop]; exact ⟨ihA, ihB, ihC, ihD, ihE⟩
      · rw [hloop] at hc
        exact absurd hc hncg

/-- Every state of a round satisfies the invariant. -/
theorem reachable_gameInv : ∀ {g : Game}, Reachable g → GameInv g := by
  intro g h
  induction h with
  | base g ds now hperm => exact gameInv_start_game g ds now hperm
  | claim pid pos now _ ih => exact gameInv_claim_tile _ pid pos now ih
  | cpuClaim pid choice now _ ih =>
    exact gameInv_cpu_claim_tile _ pid choice now ih
  | autoAssign pid choose now hsmall _ ih =>
    exact gameInv_auto_assign _ pid choose now hsmall ih
  | play pid d side now _ ih => exact gameInv_play_tile _ pid d side now ih
  | pass pid now _ ih => exact gameInv_pass_turn _ pid now ih

/-! ## Concrete fixtures -/

/-- A human seat used by the concrete scenarios. -/
def pAlice : Player :=
  { id := "a", name := "Alice", hand := [], score := 0, connected := true,
    is_cpu := false }

/-- A second human seat. -/
def pBob : Player :=
  { id := "b", name := "Bob", hand := [], score := 0, connected := true,
    is_cpu := false }

/-- A two-seat waiting game about to be started. -/
def gBase : Game :=
  { id := "g1", variant := "block", status := .waiting,
    players := [pAlice, pBob], current_turn := none, board := [],
    boneyard := [], ends := ⟨none, none⟩, max_players := 2,
    winner_id := none, round_number := 1, match_id := none,
    picking_tiles := [], turn_timeout := 0, picking_timeout := 60,
    turn_started_at := none, picking_started_at := none }

/-- C1. In every state of a game reachable once `start_game` has run
and until `start_new_round` resets it, the multiset union of all
players' hands, the boneyard, the tiles on the board, and the tiles in
`picking_tiles` is exactly the 28-tile double-six set
`{i,j}, 0 ≤ i ≤ j ≤ 6`; every operation (`claim_tile`,
`cpu_claim_tile`, `auto_assign_remaining_tiles`, `start_playing_phase`,
`play_tile`, `pass_turn`) preserves this.  The boneyard-empty
hypothesis on the three picking operations and on
`start_playing_phase` holds throughout `PICKING`, as established by the
reachability conjunct. -/
theorem claim_C1_tile_conservation :
    (fullTiles =
      ((Finset.range 7 ×ˢ Finset.range 7).filter
        (fun x => x.1 ≤ x.2)).val ∧ Multiset.card fullTiles = 28) ∧
    (∀ (g : Game) (ds : List Domino) (now : Int),
      ds.Perm generate_domino_set →
      tilesOf (start_game g ds now) = fullTiles) ∧
    (∀ (g : Game) (pid : String) (pos : Nat) (now : Int), g.boneyard = [] →
      tilesOf (claim_tile g pid pos now).1 = tilesOf g) ∧
    (∀ (g : Game) (pid : String) (choice : Nat) (now : Int),
      g.boneyard = [] →
      tilesOf (cpu_claim_tile g pid choice now).1 = tilesOf g) ∧
    (∀ (g : Game) (pid : String) (choose : Nat → Nat) (now : Int),
      g.boneyard = [] →
      tilesOf (auto_assign_remaining_tiles g pid choose now).1 = tilesOf g) ∧
    (∀ (g : Game) (sp : Option String) (now : Int), g.boneyard = [] →
      tilesOf (start_playing_phase g sp now) = tilesOf g) ∧
    (∀ (g : Game) (pid : String) (d : Domino) (side : String) (now : Int),
      tilesOf (play_tile g pid d side now).1 = tilesOf g) ∧
    (∀ (g : Game) (pid : String) (now : Int),
      tilesOf (pass_turn g pid now).1 = tilesOf g) ∧
    (∀ g : Game, Reachable g → tilesOf g = fullTiles) := by
  refine ⟨⟨by decide, by decide⟩, tilesOf_start_game, tilesOf_claim_tile,
    tilesOf_cpu_claim_tile, tilesOf_auto_assign, ?_, tilesOf_play_tile,
    tilesOf_pass_turn, fun g h => (reachable_gameInv h).1⟩
  intro g sp now hb
  exact tilesOf_start_playing_phase g sp now hb

/-- Witness for C1 at a concrete game: the identity shuffle deal of a
two-seat game conserves tiles, and so does a first concrete claim. -/
theorem claim_C1_tile_conservation_witness :
    tilesOf (start_game gBase generate_domino_set 0) = fullTiles ∧
    tilesOf (claim_tile (start_game gBase generate_domino_set 0) "a" 0 0).1
      = tilesOf (start_game gBase generate_domino_set 0) ∧
    tilesOf (start_game gBase generate_domino_set 0) = fullTiles :=
  ⟨claim_C1_tile_conservation.2.1 gBase generate_domino_set 0
      (List.Perm.refl _),
   claim_C1_tile_conservation.2.2.1 (start_game gBase generate_domino_set 0)
      "a" 0 0 rfl,
   claim_C1_tile_conservation.2.2.2.2.2.2.2.2 _
      (Reachable.base gBase generate_domino_set 0 (List.Perm.refl _))⟩

/-- The 12 picking moves of the concrete round used to refute C7:
Alice takes `{6,6}` and the five `{0,j}` blanks, Bob takes the five
remaining doubles and `{1,2}` (grid positions under the identity
shuffle). -/
def c7Claims : List (String × Nat) :=
  [("a", 27), ("a", 1), ("a", 2), ("a", 3), ("a", 4), ("a", 5),
   ("b", 7), ("b", 13), ("b", 18), ("b", 22), ("b", 25), ("b", 8)]

/-- The game after dealing by picking: Alice to move (highest double). -/
def c7Picked : Game :=
  c7Claims.foldl (fun g c => (claim_tile g c.1 c.2 0).1)
    (start_game gBase generate_domino_set 0)

/-- Alice opens with `{6,6}`; nobody else holds a 6, so the round is
immediately blocked and finishes — with the turn pointer already
advanced to Bob. -/
def c7Final : Game := (play_tile c7Picked "a" ⟨6, 6⟩ "left" 0).1

/-- Counterexample to C7 as stated: a reachable state whose status is
`FINISHED` while `current_turn` still names the seated player `"b"`
(the next seat in rotation), so `current_turn` is not nil after the
round terminates and the claimed "iff" fails. -/
theorem claim_C7_counterexample :
    Reachable c7Final ∧ c7Final.status = .finished ∧
    c7Final.current_turn = some "b" ∧
    "b" ∈ c7Final.players.map Player.id := by
  refine ⟨?_, by decide, by decide, by decide⟩
  exact Reachable.play "a" ⟨6, 6⟩ "left" 0
    (Reachable.claim "b" 8 0 (Reachable.claim "b" 25 0
      (Reachable.claim "b" 22 0 (Reachable.claim "b" 18 0
        (Reachable.claim "b" 13 0 (Reachable.claim "b" 7 0
          (Reachable.claim "a" 5 0 (Reachable.claim "a" 4 0
            (Reachable.claim "a" 3 0 (Reachable.claim "a" 2 0
              (Reachable.claim "a" 1 0 (Reachable.claim "a" 27 0
                (Reachable.base gBase generate_domino_set 0
                  (List.Perm.refl _))))))))))))))

/-- C7 (amended): in every reachable state, `current_turn` is nil
during `PICKING` and refers to a seated player whenever the status is
`PLAYING`; but the converse direction of the claimed "iff" fails: when
a round terminates, `check_game_over` leaves the already-advanced
`current_turn` in place, so in `FINISHED` it still names the next seat
in rotation rather than being nil. -/
theorem claim_C7_amended :
    ∀ g : Game, Reachable g →
      (g.status = .picking → g.current_turn = none) ∧
      (g.status = .playing → ∃ p ∈ g.players, g.current_turn = some p.id) := by
  intro g h
  obtain ⟨_, _, _, hD, hE⟩ := reachable_gameInv h
  exact ⟨hD, hE⟩

/-- Witness for the amended C7 at the freshly dealt concrete game. -/
theorem claim_C7_amended_witness :
    (start_game gBase generate_domino_set 0).current_turn = none :=
  (claim_C7_amended _
    (Reachable.base gBase generate_domino_set 0 (List.Perm.refl _))).1 rfl

/-! ## C2: characterisation of `get_valid_moves` -/

theorem collectMoves_mem (ends : BoardEnds) (hand : List Domino)
    (d : Domino) (s : String) :
    (d, s) ∈ collectMoves ends hand ↔
      d ∈ hand ∧
      ((s = "left" ∧ can_play_on_side d ends.left = true) ∨
       (s = "right" ∧ can_play_on_side d ends.right = true ∧
        ends.left ≠ ends.right)) := by
  induction hand with
  | nil => simp [collectMoves]
  | cons e rest ih =>
    simp only [collectMoves, List.mem_append, List.mem_cons]
    constructor
    · rintro ((h | h) | h)
      · split_ifs at h with h1
        · simp only [List.mem_singleton, Prod.mk.injEq] at h
          obtain ⟨rfl, rfl⟩ := h
          exact ⟨Or.inl rfl, Or.inl ⟨rfl, h1⟩⟩
        · simp at h
      · split_ifs at h with h2
        · simp only [List.mem_singleton, Prod.mk.injEq] at h
          obtain ⟨rfl, rfl⟩ := h
          simp only [Bool.and_eq_true, decide_eq_true_eq] at h2
          exact ⟨Or.inl rfl, Or.inr ⟨rfl, h2.1, h2.2⟩⟩
        · simp at h
      · obtain ⟨hd, hcase⟩ := ih.mp h
        exact ⟨Or.inr hd, hcase⟩
    · rintro ⟨hd, hcase⟩
      rcases hd with rfl | hd
      · rcases hcase with ⟨rfl, hcp⟩ | ⟨rfl, hcp, hne⟩
        · refine Or.inl (Or.inl ?_)
          rw [if_pos hcp]
          exact List.mem_singleton.mpr rfl
        · refine Or.inl (Or.inr ?_)
          rw [if_pos]
          · exact List.mem_singleton.mpr rfl
          · simp only [Bool.and_eq_true, decide_eq_true_eq]
            exact ⟨hcp, hne⟩
      · exact Or.inr (ih.mpr ⟨hd, hcase⟩)

/-- C2. For every game and seated player: on an empty board
`get_valid_moves` returns exactly the pairs `(t, "left")` for the
tiles of that player's hand (in hand order); otherwise, with ends
`(L, R)`, it contains `(t, "left")` iff `t ∈ hand` matches `L`, and
`(t, "right")` iff `t ∈ hand` matches `R` and `L ≠ R` (right-side
plays suppressed when `L = R`), and nothing else. -/
theorem claim_C2_get_valid_moves :
    ∀ (g : Game) (pid : String) (pl : Player),
      g.get_player pid = some pl →
      ((g.board = [] →
        get_valid_moves g pid = pl.hand.map (fun d => (d, "left"))) ∧
       (∀ L R, g.board ≠ [] → g.ends = ⟨some L, some R⟩ →
        ∀ (d : Domino) (s : String),
          ((d, s) ∈ get_valid_moves g pid ↔
            d ∈ pl.hand ∧
            ((s = "left" ∧ (d.left = L ∨ d.right = L)) ∨
             (s = "right" ∧ (d.left = R ∨ d.right = R) ∧ L ≠ R))))) := by
  intro g pid pl hfound
  unfold get_valid_moves
  rw [hfound]
  dsimp only
  constructor
  · intro hb
    rw [if_pos (by rw [hb]; rfl)]
  · intro L R hb hends d s
    rw [if_neg (by rwa [ne_eq, ← List.isEmpty_iff] at hb)]
    rw [collectMoves_mem, hends]
    unfold can_play_on_side
    simp only [Option.some.injEq, ne_eq, Bool.or_eq_true, beq_iff_eq]

/-- The concrete position used to witness C2: Alice holds `{5,2}` and
`{6,6}`, the single played tile `{3,5}` gives ends `(3, 5)`. -/
def gC2 : Game :=
  { gBase with
    status := .playing
    players := [{ pAlice with hand := [⟨5, 2⟩, ⟨6, 6⟩] }, pBob]
    current_turn := some "a"
    board := [⟨⟨3, 5⟩, 0⟩]
    ends := ⟨some 3, some 5⟩ }

/-- Witness for C2: in `gC2`, `{5,2}` is playable on the right and
`{6,6}` is not playable on the left. -/
theorem claim_C2_get_valid_moves_witness :
    ((⟨5, 2⟩ : Domino), "right") ∈ get_valid_moves gC2 "a" ∧
    ¬ ((⟨6, 6⟩ : Domino), "left") ∈ get_valid_moves gC2 "a" := by
  have h := (claim_C2_get_valid_moves gC2 "a"
    { pAlice with hand := [⟨5, 2⟩, ⟨6, 6⟩] } rfl).2 3 5 (by decide) rfl
  constructor
  · exact (h ⟨5, 2⟩ "right").mpr (by decide)
  · intro hm
    have := (h ⟨6, 6⟩ "left").mp hm
    revert this
    decide

/-! ## C3: placement orientation and end updates -/

/-- C3. A successful `play_tile` on the left of a non-empty board with
ends `(L, R)` places `d` flipped iff `d.right ≠ L`, so the placed
orientation has right pip `L`, and the new ends are
`(placed.left, R)`; symmetrically on the right the placed left pip is
`R` and the new ends are `(L, placed.right)`; a first placement on an
empty board lays the tile as sent and sets `ends = (d.left, d.right)`. -/
theorem claim_C3_placement :
    (∀ (g : Game) (pid : String) (d : Domino) (s : String) (now : Int)
       (g' : Game) (msg : String),
      g.board = [] → play_tile g pid d s now = (g', true, msg) →
      g'.board = [⟨d, 0⟩] ∧ g'.ends = ⟨some d.left, some d.right⟩) ∧
    (∀ (g : Game) (pid : String) (d : Domino) (now : Int)
       (g' : Game) (msg : String) (L R : Nat),
      g.board ≠ [] → g.ends = ⟨some L, some R⟩ →
      play_tile g pid d "left" now = (g', true, msg) →
      ∃ pd : Domino, pd = (if d.right = L then d else d.flipped) ∧
        pd.right = L ∧ g'.board = ⟨pd, 0⟩ :: g.board ∧
        g'.ends = ⟨some pd.left, some R⟩) ∧
    (∀ (g : Game) (pid : String) (d : Domino) (now : Int)
       (g' : Game) (msg : String) (L R : Nat),
      g.board ≠ [] → g.ends = ⟨some L, some R⟩ →
      play_tile g pid d "right" now = (g', true, msg) →
      ∃ pd : Domino, pd = (if d.left = R then d else d.flipped) ∧
        pd.left = R ∧ g'.board = g.board ++ [⟨pd, g.board.length⟩] ∧
        g'.ends = ⟨some L, some pd.right⟩) := by
  refine ⟨?_, ?_, ?_⟩
  · intro g pid d s now g' msg hb h
    unfold play_tile at h
    split at h
    · simp at h
    · split at h
      · simp at h
      · split at h
        · simp at h
        · next player hfound =>
          split at h
          · simp at h
          · next hd hfind =>
            split at h
            · have hg' : check_game_over (advance_turn _ now) = g' :=
                congrArg (fun t => t.1) h
              obtain ⟨cfP, cfB, _, _, _, _⟩ :=
                check_game_over_frame (advance_turn _ now)
              obtain ⟨afP, afB, _, _, afE, _, _⟩ := advance_turn_frame _ now
              constructor
              · rw [← hg', cfB, afB]
                dsimp only
                rw [hb]
                rfl
              · rw [← hg', (check_game_over_frame _).2.2.2.2.1, afE]
            · next hcon =>
              rw [List.isEmpty_iff] at hcon
              exact absurd hb hcon
  · intro g pid d now g' msg L R hb hends h
    unfold play_tile at h
    split at h
    · simp at h
    · split at h
      · simp at h
      · split at h
        · simp at h
        · next player hfound =>
          split at h
          · simp at h
          · next hd hfind =>
            split at h
            · next hcon =>
              rw [List.isEmpty_iff] at hcon
              exact absurd hcon hb
            · split at h
              · split at h
                · simp at h
                · next hncp =>
                  have hcp : can_play_on_side d g.ends.left = true :=
                    not_not.mp hncp
                  rw [hends] at hcp
                  simp only [can_play_on_side, Bool.or_eq_true,
                    beq_iff_eq] at hcp
                  have hg' : check_game_over (advance_turn _ now) = g' :=
                    congrArg (fun t => t.1) h
                  refine ⟨if g.ends.left == some d.right then d
                      else d.flipped, ?_, ?_, ?_, ?_⟩
                  · rw [hends]
                    by_cases hdr : d.right = L
                    · rw [if_pos (by simp [hdr]), if_pos hdr]
                    · rw [if_neg (by simp; exact fun hc => hdr hc.symm),
                        if_neg hdr]
                  · rw [hends]
                    by_cases hdr : d.right = L
                    · rw [if_pos (by simp [hdr])]
                      exact hdr
                    · rw [if_neg (by simp; exact fun hc => hdr hc.symm)]
                      rcases hcp with hdl | hdl
                      · exact hdl
                      · exact absurd hdl hdr
                  · rw [← hg', (check_game_over_frame _).2.1,
                      (advance_turn_frame _ now).2.1]
                  · rw [← hg', (check_game_over_frame _).2.2.2.2.1,
                      (advance_turn_frame _ now).2.2.2.2.1]
                    rw [hends]
              · next hside => simp at hside
  · intro g pid d now g' msg L R hb hends h
    unfold play_tile at h
    split at h
    · simp at h
    · split at h
      · simp at h
      · split at h
        · simp at h
        · next player hfound =>
          split at h
          · simp at h
          · next hd hfind =>
            split at h
            · next hcon =>
              rw [List.isEmpty_iff] at hcon
              exact absurd hcon hb
            · split at h
              · next hside => simp at hside
              · split at h
                · split at h
                  · simp at h
                  · next hncp =>
                    have hcp : can_play_on_side d g.ends.right = true :=
                      not_not.mp hncp
                    rw [hends] at hcp
                    simp only [can_play_on_side, Bool.or_eq_true,
                      beq_iff_eq] at hcp
                    have hg' : check_game_over (advance_turn _ now) = g' :=
                      congrArg (fun t => t.1) h
                    refine ⟨if g.ends.right == some d.left then d
                        else d.flipped, ?_, ?_, ?_, ?_⟩
                    · rw [hends]
                      by_cases hdl : d.left = R
                      · rw [if_pos (by simp [hdl]), if_pos hdl]
                      · rw [if_neg (by simp; exact fun hc => hdl hc.symm),
                          if_neg hdl]
                    · rw [hends]
                      by_cases hdl : d.left = R
                      · rw [if_pos (by simp [hdl])]
                        exact hdl
                      · rw [if_neg (by simp; exact fun hc => hdl hc.symm)]
                        rcases hcp with hdr | hdr
                        · exact absurd hdr hdl
                        · exact hdr
                    · rw [← hg', (check_game_over_frame _).2.1,
                        (advance_turn_frame _ now).2.1]
                    · rw [← hg', (check_game_over_frame _).2.2.2.2.1,
                        (advance_turn_frame _ now).2.2.2.2.1]
                      rw [hends]
                · next hside => simp at hside

/-- Spec example position for C3: ends `(3,5)`, Alice to play `{5,2}`
on the right, then Bob `{3,6}` on the left. -/
def gC3 : Game :=
  { gBase with
    status := .playing
    players := [{ pAlice with hand := [⟨5, 2⟩, ⟨0, 0⟩] },
                { pBob with hand := [⟨3, 6⟩] }]
    current_turn := some "a"
    board := [⟨⟨3, 5⟩, 0⟩]
    ends := ⟨some 3, some 5⟩ }

/-- After `{5,2}` is played on the right. -/
def gC3b : Game := (play_tile gC3 "a" ⟨5, 2⟩ "right" 0).1

/-- After `{3,6}` is then played on the left. -/
def gC3c : Game := (play_tile gC3b "b" ⟨3, 6⟩ "left" 0).1

/-- Witness for C3 enacting the spec's example: from ends `(3,5)`,
`{5,2}` on the right is laid unflipped as `(5,2)` giving ends `(3,2)`;
then `{3,6}` on the left is laid flipped as `(6,3)` giving ends
`(6,2)`. -/
theorem claim_C3_placement_witness :
    (∃ pd : Domino,
      pd = (if (⟨5, 2⟩ : Domino).left = 5 then (⟨5, 2⟩ : Domino)
            else (⟨5, 2⟩ : Domino).flipped) ∧
      pd.left = 5 ∧ gC3b.board = gC3.board ++ [⟨pd, gC3.board.length⟩] ∧
      gC3b.ends = ⟨some 3, some pd.right⟩) ∧
    (∃ pd : Domino,
      pd = (if (⟨3, 6⟩ : Domino).right = 3 then (⟨3, 6⟩ : Domino)
            else (⟨3, 6⟩ : Domino).flipped) ∧
      pd.right = 3 ∧ gC3c.board = ⟨pd, 0⟩ :: gC3b.board ∧
      gC3c.ends = ⟨some pd.left, some 2⟩) ∧
    gC3b.ends = ⟨some 3, some 2⟩ ∧ gC3c.ends = ⟨some 6, some 2⟩ :=
  ⟨claim_C3_placement.2.2 gC3 "a" ⟨5, 2⟩ 0 gC3b "Tile played" 3 5
      (by decide) rfl (by decide),
   claim_C3_placement.2.1 gC3b "b" ⟨3, 6⟩ 0 gC3c "Tile played" 3 2
      (by decide) (by decide) (by decide),
   by decide, by decide⟩

/-! ## C4: blocked-game termination and winner selection -/

theorem pyMinBy_cons (f : Player → Nat) (h x : Player) (t : List Player) :
    pyMinBy f h (x :: t) = pyMinBy f (if f x < f h then x else h) t := rfl

/-- Python's `min(..., key=f)` keeps the first element attaining the
minimum: the result is a global minimum and every strictly earlier
element has a strictly larger key. -/
theorem pyMinBy_spec (f : Player → Nat) :
    ∀ (t : List Player) (h : Player),
      (∀ q ∈ h :: t, f (pyMinBy f h t) ≤ f q) ∧
      (pyMinBy f h t = h ∨
       ∃ l₁ l₂, t = l₁ ++ pyMinBy f h t :: l₂ ∧
         f (pyMinBy f h t) < f h ∧ ∀ q ∈ l₁, f (pyMinBy f h t) < f q) := by
  intro t
  induction t with
  | nil =>
    intro h
    refine ⟨?_, Or.inl rfl⟩
    intro q hq
    rcases List.mem_singleton.mp hq with rfl
    exact le_refl _
  | cons x t' ih =>
    intro h
    rw [pyMinBy_cons]
    by_cases hfx : f x < f h
    · rw [if_pos hfx]
      obtain ⟨hmin, hdec⟩ := ih x
      constructor
      · intro q hq
        rcases List.mem_cons.mp hq with rfl | hq'
        · exact le_of_lt (lt_of_le_of_lt (hmin x (List.mem_cons_self _ _)) hfx)
        · exact hmin q hq'
      · rcases hdec with heq | ⟨l₁, l₂, hsplit, hlt, hall⟩
        · refine Or.inr ⟨[], t', ?_, ?_, ?_⟩
          · simp [heq]
          · rw [heq]; exact hfx
          · intro q hq; simp at hq
        · refine Or.inr ⟨x :: l₁, l₂, ?_, lt_trans hlt hfx, ?_⟩
          · rw [List.cons_append, ← hsplit]
          · intro q hq
            rcases List.mem_cons.mp hq with rfl | hq'
            · exact hlt
            · exact hall q hq'
    · rw [if_neg hfx]
      push_neg at hfx
      obtain ⟨hmin, hdec⟩ := ih h
      constructor
      · intro q hq
        rcases List.mem_cons.mp hq with rfl | hq'
        · exact hmin q (List.mem_cons_self _ _)
        · rcases List.mem_cons.mp hq' with rfl | hq''
          · exact le_trans (hmin h (List.mem_cons_self _ _)) hfx
          · exact hmin q (List.mem_cons_of_mem _ hq'')
      · rcases hdec with heq | ⟨l₁, l₂, hsplit, hlt, hall⟩
        · exact Or.inl heq
        · refine Or.inr ⟨x :: l₁, l₂, ?_, hlt, ?_⟩
          · rw [List.cons_append, ← hsplit]
          · intro q hq
            rcases List.mem_cons.mp hq with rfl | hq'
            · exact lt_of_lt_of_le hlt hfx
            · exact hall q hq'

/-- C4. In any state where every seated player still holds a tile and
nobody has a legal move, `check_game_over` finishes the round and
names as winner the player with the smallest hand pip total, ties
broken in favour of the earliest seat: every strictly earlier seat has
a strictly larger total. -/
theorem claim_C4_blocked_winner :
    ∀ (g : Game) (p : Player) (ps : List Player),
      g.players = p :: ps →
      (∀ q ∈ g.players, q.hand ≠ []) →
      (∀ q ∈ g.players, has_valid_move g q.id = false) →
      (check_game_over g).status = .finished ∧
      ∃ w l₁ l₂, (check_game_over g).winner_id = some w.id ∧
        g.players = l₁ ++ w :: l₂ ∧
        (∀ q ∈ g.players, w.hand_total ≤ q.hand_total) ∧
        (∀ q ∈ l₁, w.hand_total < q.hand_total) := by
  intro g p ps hps hhands hmoves
  have hfind : g.players.find? (fun p => p.hand.isEmpty) = none := by
    rw [List.find?_eq_none]
    intro x hx
    simp only [List.isEmpty_iff]
    exact hhands x hx
  have hall : (g.players.all fun p => ¬ has_valid_move g p.id) = true := by
    rw [List.all_eq_true]
    intro x hx
    simp [hmoves x hx]
  unfold check_game_over
  rw [hfind, if_pos hall, hps]
  dsimp only
  obtain ⟨hmin, hdec⟩ := pyMinBy_spec Player.hand_total ps p
  refine ⟨rfl, pyMinBy Player.hand_total p ps, ?_⟩
  rcases hdec with heq | ⟨l₁, l₂, hsplit, hlt, halt⟩
  · refine ⟨[], ps, rfl, ?_, ?_, ?_⟩
    · simp [heq]
    · intro q hq; exact hmin q hq
    · intro q hq; simp at hq
  · refine ⟨p :: l₁, l₂, rfl, ?_, ?_, ?_⟩
    · rw [List.cons_append, ← hsplit]
    · intro q hq; exact hmin q hq
    · intro q hq
      rcases List.mem_cons.mp hq with rfl | hq'
      · exact hlt
      · exact halt q hq'

/-- Blocked concrete position: `{6,6}` opened, Alice holds `{0,1}`
(total 1), Bob holds `{1,2}` (total 3); nobody matches a 6. -/
def gC4 : Game :=
  { gBase with
    status := .playing
    players := [{ pAlice with hand := [⟨0, 1⟩] },
                { pBob with hand := [⟨1, 2⟩] }]
    current_turn := some "a"
    board := [⟨⟨6, 6⟩, 0⟩]
    ends := ⟨some 6, some 6⟩ }

/-- Witness for C4 at the blocked position `gC4`. -/
theorem claim_C4_blocked_winner_witness :
    (check_game_over gC4).status = .finished ∧
    ∃ w l₁ l₂, (check_game_over gC4).winner_id = some w.id ∧
      gC4.players = l₁ ++ w :: l₂ ∧
      (∀ q ∈ gC4.players, w.hand_total ≤ q.hand_total) ∧
      (∀ q ∈ l₁, w.hand_total < q.hand_total) :=
  claim_C4_blocked_winner gC4 { pAlice with hand := [⟨0, 1⟩] }
    [{ pBob with hand := [⟨1, 2⟩] }] rfl (by decide) (by decide)

/-! ## C5: round scoring -/

/-- `remaining_pips = {p.id: p.hand_total() for p in game.players}`;
with the service's unique uuid ids the dict is exactly this
association list (all scoring theorems assume the ids are distinct). -/
def remainingPips (g : Game) : List (String × Nat) :=
  g.players.map (fun p => (p.id, p.hand_total))

/-- `remaining_pips.get(pid, 0)`. -/
def pipsGet (l : List (String × Nat)) (k : String) : Nat :=
  ((l.find? (fun e => e.1 == k)).map (·.2)).getD 0

/-- `logic.calculate_round_points`. Returns
`(winner_id, points_awarded, remaining_pips)`; points are `Int`
because the blocked formula subtracts before clamping at zero.
`if not winner_id` treats the empty string as falsy. -/
def calculate_round_points (g : Game) :
    Option String × Int × List (String × Nat) :=
  let remaining := remainingPips g
  match g.winner_id with
  | none => (none, 0, remaining)
  | some w =>
    if w = "" then (none, 0, remaining)
    else
      let oppSum : Int :=
        ((remaining.filter (fun e => e.1 ≠ w)).map
          (fun e => (e.2 : Int))).sum
      let points : Int :=
        match g.get_player w with
        | some winner =>
          if winner.hand.isEmpty then oppSum
          else max 0 (oppSum - (pipsGet remaining w : Int))
        | none => max 0 (oppSum - (pipsGet remaining w : Int))
      (some w, points, remaining)

/-- `logic.calculate_team_round_points`. Returns
`(winning_team, points_awarded, remaining_pips)`. -/
def calculate_team_round_points (g : Game) (team_a team_b : List String) :
    Option String × Int × List (String × Nat) :=
  let remaining := remainingPips g
  let team_a_pips : Int :=
    (team_a.map (fun pid => (pipsGet remaining pid : Int))).sum
  let team_b_pips : Int :=
    (team_b.map (fun pid => (pipsGet remaining pid : Int))).sum
  match g.winner_id with
  | none => (none, 0, remaining)
  | some w =>
    if w = "" then (none, 0, remaining)
    else if w ∈ team_a then
      let points : Int :=
        match g.get_player w with
        | some winner =>
          if winner.hand.isEmpty then team_b_pips
          else max 0 (team_b_pips - team_a_pips)
        | none => max 0 (team_b_pips - team_a_pips)
      (some "team_a", points, remaining)
    else
      let points : Int :=
        match g.get_player w with
        | some winner =>
          if winner.hand.isEmpty then team_a_pips
          else max 0 (team_a_pips - team_b_pips)
        | none => max 0 (team_a_pips - team_b_pips)
      (some "team_b", points, remaining)

/-- The claim's formula: summed remaining pips of the winner's
opponents. -/
def oppSpec (g : Game) (w : String) : Int :=
  ((g.players.filter (fun p => p.id ≠ w)).map
    (fun p => (p.hand_total : Int))).sum

/-- The claim's formula: summed remaining pips of one team's seated
members. -/
def teamSpec (g : Game) (team : List String) : Int :=
  ((g.players.filter (fun p => p.id ∈ team)).map
    (fun p => (p.hand_total : Int))).sum

theorem pipsGet_remainingPips (g : Game) (k : String) :
    pipsGet (remainingPips g) k =
      ((g.players.find? (fun p => p.id == k)).map Player.hand_total).getD 0 := by
  unfold pipsGet remainingPips
  rw [List.find?_map]
  have hpred : ((fun (e : String × Nat) => e.1 == k) ∘
      fun p : Player => (p.id, p.hand_total)) =
      (fun p : Player => p.id == k) := rfl
  rw [hpred]
  cases List.find? (fun p : Player => p.id == k) g.players <;> rfl

theorem oppSum_eq_oppSpec (g : Game) (w : String) :
    (((remainingPips g).filter (fun e => e.1 ≠ w)).map
      (fun e => (e.2 : Int))).sum = oppSpec g w := by
  unfold remainingPips oppSpec
  rw [List.filter_map, List.map_map]
  rfl

theorem find?_id_eq_none {ps : List Player} {k : String}
    (h : k ∉ ps.map Player.id) :
    ps.find? (fun p => p.id == k) = none := by
  rw [List.find?_eq_none]
  intro p hp hpk
  exact h (List.mem_map.mpr ⟨p, hp, by simpa using hpk⟩)

theorem sum_filter_or_disjoint (ps : List Player)
    (p q : Player → Bool) (hdis : ∀ x ∈ ps, ¬(p x = true ∧ q x = true)) :
    ((ps.filter (fun x => p x || q x)).map
      (fun x => (x.hand_total : Int))).sum =
    ((ps.filter p).map (fun x => (x.hand_total : Int))).sum +
    ((ps.filter q).map (fun x => (x.hand_total : Int))).sum := by
  induction ps with
  | nil => simp
  | cons x ps' ih =>
    have hdis' : ∀ y ∈ ps', ¬(p y = true ∧ q y = true) :=
      fun y hy => hdis y (List.mem_cons_of_mem _ hy)
    have hx := hdis x (List.mem_cons_self _ _)
    rw [List.filter_cons, List.filter_cons, List.filter_cons]
    cases hp : p x with
    | true =>
      have hq : q x = false := by
        cases hqx : q x with
        | true => exact absurd ⟨hp, hqx⟩ hx
        | false => rfl
      simp only [hp, hq, Bool.true_or, if_true, Bool.false_eq_true,
        if_false, List.map_cons, List.sum_cons, ih hdis']
      ring
    | false =>
      cases hq : q x with
      | true =>
        simp only [hp, hq, Bool.false_or, if_true, Bool.false_eq_true,
          if_false, List.map_cons, List.sum_cons, ih hdis']
        ring
      | false =>
        simp only [hp, hq, Bool.false_or, Bool.false_eq_true, if_false,
          ih hdis']

theorem sum_filter_id_eq (ps : List Player) (k : String)
    (hnd : (ps.map Player.id).Nodup) :
    ((ps.filter (fun x => x.id == k)).map
      (fun x => (x.hand_total : Int))).sum =
    ((ps.find? (fun p => p.id == k)).map
      (fun p => (p.hand_total : Int))).getD 0 := by
  induction ps with
  | nil => simp
  | cons q ps' ih =>
    rw [List.map_cons, List.nodup_cons] at hnd
    obtain ⟨hqnotin, hnd'⟩ := hnd
    rw [List.filter_cons, List.find?_cons]
    by_cases hq : q.id = k
    · have hqb : (q.id == k) = true := by simp [hq]
      have hnil : ps'.filter (fun x => x.id == k) = [] := by
        rw [List.filter_eq_nil_iff]
        intro a ha hak
        exact hqnotin (List.mem_map.mpr ⟨a, ha,
          by rw [hq]; simpa using hak⟩)
      rw [hqb]
      simp [hnil]
    · have hqb : (q.id == k) = false := by simp [hq]
      rw [hqb]
      simpa using ih hnd'

theorem teamSum_eq_teamSpec (g : Game) (team : List String)
    (hnd : (g.players.map Player.id).Nodup) (htd : team.Nodup) :
    (team.map (fun pid => (pipsGet (remainingPips g) pid : Int))).sum =
      teamSpec g team := by
  induction team with
  | nil =>
    unfold teamSpec
    simp
  | cons k rest ih =>
    rw [List.nodup_cons] at htd
    obtain ⟨hkrest, htd'⟩ := htd
    rw [List.map_cons, List.sum_cons, ih htd']
    unfold teamSpec
    have hcongr : g.players.filter (fun p => decide (p.id ∈ (k :: rest)))
        = g.players.filter (fun p => (p.id == k) || decide (p.id ∈ rest)) := by
      apply List.filter_congr
      intro x _
      by_cases h1 : x.id = k <;> by_cases h2 : x.id ∈ rest <;>
        simp [h1, h2]
    rw [hcongr, sum_filter_or_disjoint g.players _ _ ?hdis,
      sum_filter_id_eq g.players k hnd]
    case hdis =>
      rintro x _ ⟨h1, h2⟩
      rw [beq_iff_eq] at h1
      rw [decide_eq_true_eq] at h2
      rw [h1] at h2
      exact hkrest h2
    congr 1
    rw [pipsGet_remainingPips]
    cases List.find? (fun p : Player => p.id == k) g.players <;> simp


theorem oppSpec_nonneg (g : Game) (w : String) : 0 ≤ oppSpec g w := by
  apply List.sum_nonneg
  intro x hx
  rcases List.mem_map.mp hx with ⟨p, _, rfl⟩
  exact Int.natCast_nonneg _

theorem teamSpec_nonneg (g : Game) (team : List String) :
    0 ≤ teamSpec g team := by
  apply List.sum_nonneg
  intro x hx
  rcases List.mem_map.mp hx with ⟨p, _, rfl⟩
  exact Int.natCast_nonneg _

/-- C5. For a finished round with a seated winner (ids distinct): in
free-for-all, a domino'd (empty-handed) winner is awarded the sum of
all opponents' remaining pips, otherwise `max 0 (opponents − winner)`;
in team mode the winning team is the winner's team, awarded the
opposing team's summed pips when domino'd, else
`max 0 (opponents' team − own team)`; all awards are non-negative. -/
theorem claim_C5_round_points :
    ∀ (g : Game) (w : String) (pl : Player) (team_a team_b : List String),
      g.winner_id = some w → w ≠ "" → g.get_player w = some pl →
      (g.players.map Player.id).Nodup →
      (calculate_round_points g =
        (some w,
         (if pl.hand = [] then oppSpec g w
          else max 0 (oppSpec g w - (pl.hand_total : Int))),
         remainingPips g) ∧
       0 ≤ (calculate_round_points g).2.1) ∧
      (team_a.Nodup → team_b.Nodup →
        ((w ∈ team_a →
          calculate_team_round_points g team_a team_b =
            (some "team_a",
             (if pl.hand = [] then teamSpec g team_b
              else max 0 (teamSpec g team_b - teamSpec g team_a)),
             remainingPips g)) ∧
         (w ∉ team_a →
          calculate_team_round_points g team_a team_b =
            (some "team_b",
             (if pl.hand = [] then teamSpec g team_a
              else max 0 (teamSpec g team_a - teamSpec g team_b)),
             remainingPips g)) ∧
         0 ≤ (calculate_team_round_points g team_a team_b).2.1)) := by
  intro g w pl team_a team_b hw hne hfound hnd
  have hget : pipsGet (remainingPips g) w = pl.hand_total := by
    rw [pipsGet_remainingPips]
    unfold Game.get_player at hfound
    rw [hfound]
    rfl
  have hopp := oppSum_eq_oppSpec g w
  have hmain : calculate_round_points g =
      (some w,
       (if pl.hand = [] then oppSpec g w
        else max 0 (oppSpec g w - (pl.hand_total : Int))),
       remainingPips g) := by
    unfold calculate_round_points
    rw [hw]
    dsimp only
    rw [if_neg hne, hfound]
    dsimp only
    by_cases hh : pl.hand = []
    · rw [if_pos (by simp [hh]), if_pos hh, hopp]
    · rw [if_neg (by simp [hh]), if_neg hh, hopp, hget]
  refine ⟨⟨hmain, ?_⟩, ?_⟩
  · rw [hmain]
    dsimp only
    by_cases hh : pl.hand = []
    · rw [if_pos hh]
      exact oppSpec_nonneg g w
    · rw [if_neg hh]
      exact le_max_left 0 _
  · intro hta htb
    have hsa := teamSum_eq_teamSpec g team_a hnd hta
    have hsb := teamSum_eq_teamSpec g team_b hnd htb
    have hteamA : w ∈ team_a →
        calculate_team_round_points g team_a team_b =
          (some "team_a",
           (if pl.hand = [] then teamSpec g team_b
            else max 0 (teamSpec g team_b - teamSpec g team_a)),
           remainingPips g) := by
      intro hmem
      unfold calculate_team_round_points
      rw [hw]
      dsimp only
      rw [if_neg hne, if_pos hmem, hfound]
      dsimp only
      by_cases hh : pl.hand = []
      · rw [if_pos (by simp [hh]), if_pos hh, hsb]
      · rw [if_neg (by simp [hh]), if_neg hh, hsa, hsb]
    have hteamB : w ∉ team_a →
        calculate_team_round_points g team_a team_b =
          (some "team_b",
           (if pl.hand = [] then teamSpec g team_a
            else max 0 (teamSpec g team_a - teamSpec g team_b)),
           remainingPips g) := by
      intro hmem
      unfold calculate_team_round_points
      rw [hw]
      dsimp only
      rw [if_neg hne, if_neg hmem, hfound]
      dsimp only
      by_cases hh : pl.hand = []
      · rw [if_pos (by simp [hh]), if_pos hh, hsa]
      · rw [if_neg (by simp [hh]), if_neg hh, hsa, hsb]
    refine ⟨hteamA, hteamB, ?_⟩
    by_cases hmem : w ∈ team_a
    · rw [hteamA hmem]
      dsimp only
      by_cases hh : pl.hand = []
      · rw [if_pos hh]
        exact teamSpec_nonneg g team_b
      · rw [if_neg hh]
        exact le_max_left 0 _
    · rw [hteamB hmem]
      dsimp only
      by_cases hh : pl.hand = []
      · rw [if_pos hh]
        exact teamSpec_nonneg g team_a
      · rw [if_neg hh]
        exact le_max_left 0 _

/-- Third seat for the team-mode fixture. -/
def pCarol : Player :=
  { id := "c", name := "Carol", hand := [], score := 0, connected := true,
    is_cpu := false }

/-- Fourth seat for the team-mode fixture. -/
def pDave : Player :=
  { id := "d", name := "Dave", hand := [], score := 0, connected := true,
    is_cpu := false }

/-- A finished 4-player round: Alice domino'd; Bob, Carol and Dave
hold 3, 7 and 11 remaining pips. -/
def gC5 : Game :=
  { gBase with
    status := .finished
    max_players := 4
    players := [{ pAlice with hand := [] },
                { pBob with hand := [⟨1, 2⟩] },
                { pCarol with hand := [⟨3, 4⟩] },
                { pDave with hand := [⟨5, 6⟩] }]
    winner_id := some "a" }

/-- Witness for C5: Alice's domino awards her 3+7+11 = 21 in
free-for-all and her team the opposing pips 3+11 = 14 in team mode. -/
theorem claim_C5_round_points_witness :
    calculate_round_points gC5 = (some "a", 21, remainingPips gC5) ∧
    calculate_team_round_points gC5 ["a", "c"] ["b", "d"] =
      (some "team_a", 14, remainingPips gC5) := by
  have h := claim_C5_round_points gC5 "a" { pAlice with hand := [] }
    ["a", "c"] ["b", "d"] rfl (by decide) rfl (by decide)
  constructor
  · rw [h.1.1]
    decide
  · rw [(h.2 (by decide) (by decide)).1 (by decide)]
    decide

/-! ## C6: `play_tile` failure conditions -/

/-- C6 (amended). For a seated caller, `play_tile` fails, leaving the
state unchanged and returning the listed distinct reason strings,
exactly when: the game is not in PLAYING; it is not the caller's turn;
the tile is absent from the caller's hand under orientation-insensitive
equality; or — only when the board is non-empty — the tile does not
match the chosen end, or the side is not `"left"`/`"right"`.  On an
empty board any side string is accepted and the first tile is played;
on a non-empty board a matching tile on a valid side succeeds. -/
theorem claim_C6_play_tile_failures :
    ∀ (g : Game) (pid : String) (d : Domino) (side : String) (now : Int)
      (pl : Player), g.get_player pid = some pl →
    ((g.status ≠ .playing →
      play_tile g pid d side now = (g, false, "Game is not in progress")) ∧
     (g.status = .playing → g.current_turn ≠ some pid →
      play_tile g pid d side now = (g, false, "It's not your turn")) ∧
     (g.status = .playing → g.current_turn = some pid →
      (∀ h ∈ pl.hand, h.dEq d = false) →
      play_tile g pid d side now = (g, false, "You don't have that domino")) ∧
     (g.status = .playing → g.current_turn = some pid →
      (∃ h ∈ pl.hand, h.dEq d = true) → g.board ≠ [] →
      can_play_on_side d g.ends.left = false →
      play_tile g pid d "left" now =
        (g, false,
         "Domino doesn't match left end (" ++ endStr g.ends.left ++ ")")) ∧
     (g.status = .playing → g.current_turn = some pid →
      (∃ h ∈ pl.hand, h.dEq d = true) → g.board ≠ [] →
      can_play_on_side d g.ends.right = false →
      play_tile g pid d "right" now =
        (g, false,
         "Domino doesn't match right end (" ++ endStr g.ends.right ++ ")")) ∧
     (g.status = .playing → g.current_turn = some pid →
      (∃ h ∈ pl.hand, h.dEq d = true) → g.board ≠ [] →
      side ≠ "left" → side ≠ "right" →
      play_tile g pid d side now =
        (g, false, "Invalid side (must be 'left' or 'right')")) ∧
     (g.status = .playing → g.current_turn = some pid →
      (∃ h ∈ pl.hand, h.dEq d = true) → g.board = [] →
      (play_tile g pid d side now).2.1 = true) ∧
     (g.status = .playing → g.current_turn = some pid →
      (∃ h ∈ pl.hand, h.dEq d = true) → g.board ≠ [] →
      can_play_on_side d g.ends.left = true →
      (play_tile g pid d "left" now).2.1 = true) ∧
     (g.status = .playing → g.current_turn = some pid →
      (∃ h ∈ pl.hand, h.dEq d = true) → g.board ≠ [] →
      can_play_on_side d g.ends.right = true →
      (play_tile g pid d "right" now).2.1 = true)) := by
  intro g pid d side now pl hfound
  have hfindD : (∃ h ∈ pl.hand, h.dEq d = true) →
      ∃ hd, pl.hand.find? (fun h => h.dEq d) = some hd := by
    rintro ⟨h, hh, hdq⟩
    have hs : (pl.hand.find? (fun h => h.dEq d)).isSome :=
      List.find?_isSome.mpr ⟨h, hh, hdq⟩
    exact Option.isSome_iff_exists.mp hs
  refine ⟨?_, ?_, ?_, ?_, ?_, ?_, ?_, ?_, ?_⟩
  · intro h
    unfold play_tile
    rw [if_pos h]
  · intro hst hct
    unfold play_tile
    rw [if_neg (by simp [hst]), if_pos hct]
  · intro hst hct habs
    unfold play_tile
    rw [if_neg (by simp [hst]), if_neg (by simp [hct]), hfound]
    dsimp only
    rw [List.find?_eq_none.mpr (fun x hx => by rw [habs x hx]; simp)]
  · intro hst hct hmem hb hcp
    rcases hfindD hmem with ⟨hd, hhd⟩
    unfold play_tile
    rw [if_neg (by simp [hst]), if_neg (by simp [hct]), hfound]
    dsimp only
    rw [hhd]
    dsimp only
    rw [if_neg (by simpa [List.isEmpty_iff] using hb)]
    rw [if_pos (by rfl), if_pos (by simp [hcp])]
  · intro hst hct hmem hb hcp
    rcases hfindD hmem with ⟨hd, hhd⟩
    unfold play_tile
    rw [if_neg (by simp [hst]), if_neg (by simp [hct]), hfound]
    dsimp only
    rw [hhd]
    dsimp only
    rw [if_neg (by simpa [List.isEmpty_iff] using hb)]
    rw [if_neg (by simp), if_pos (by rfl), if_pos (by simp [hcp])]
  · intro hst hct hmem hb hs1 hs2
    rcases hfindD hmem with ⟨hd, hhd⟩
    unfold play_tile
    rw [if_neg (by simp [hst]), if_neg (by simp [hct]), hfound]
    dsimp only
    rw [hhd]
    dsimp only
    rw [if_neg (by simpa [List.isEmpty_iff] using hb)]
    rw [if_neg (by simp [hs1]), if_neg (by simp [hs2])]
  · intro hst hct hmem hb
    rcases hfindD hmem with ⟨hd, hhd⟩
    unfold play_tile
    rw [if_neg (by simp [hst]), if_neg (by simp [hct]), hfound]
    dsimp only
    rw [hhd]
    dsimp only
    rw [if_pos (by simp [List.isEmpty_iff, hb])]
  · intro hst hct hmem hb hcp
    rcases hfindD hmem with ⟨hd, hhd⟩
    unfold play_tile
    rw [if_neg (by simp [hst]), if_neg (by simp [hct]), hfound]
    dsimp only
    rw [hhd]
    dsimp only
    rw [if_neg (by simpa [List.isEmpty_iff] using hb)]
    rw [if_pos (by rfl), if_neg (by simp [hcp])]
  · intro hst hct hmem hb hcp
    rcases hfindD hmem with ⟨hd, hhd⟩
    unfold play_tile
    rw [if_neg (by simp [hst]), if_neg (by simp [hct]), hfound]
    dsimp only
    rw [hhd]
    dsimp only
    rw [if_neg (by simpa [List.isEmpty_iff] using hb)]
    rw [if_neg (by simp), if_pos (by rfl), if_neg (by simp [hcp])]

/-- Playing position with an empty board for the C6 counterexample and
witness. -/
def gC6 : Game :=
  { gBase with
    status := .playing
    players := [{ pAlice with hand := [⟨2, 3⟩, ⟨0, 0⟩] },
                { pBob with hand := [⟨1, 1⟩] }]
    current_turn := some "a"
    board := []
    ends := ⟨none, none⟩ }

/-- Counterexample to C6 as stated: with the board empty, `play_tile`
accepts the side string `"up"` — which is neither `"left"` nor
`"right"` — and succeeds, so "fails exactly when … side is not one of
left/right" is false. -/
theorem claim_C6_counterexample :
    ("up" ≠ "left" ∧ "up" ≠ "right") ∧
    (play_tile gC6 "a" ⟨2, 3⟩ "up" 0).2.1 = true ∧
    (play_tile gC6 "a" ⟨2, 3⟩ "up" 0).2.2 = "Tile played" := by
  refine ⟨⟨by decide, by decide⟩, by decide, by decide⟩

/-- Witness for the amended C6: a wrong-turn call by Bob fails with
the stable reason and no state change, and Alice's empty-board play
with an arbitrary side succeeds. -/
theorem claim_C6_play_tile_failures_witness :
    play_tile gC6 "b" ⟨1, 1⟩ "left" 0 = (gC6, false, "It's not your turn") ∧
    (play_tile gC6 "a" ⟨2, 3⟩ "up" 0).2.1 = true :=
  ⟨(claim_C6_play_tile_failures gC6 "b" ⟨1, 1⟩ "left" 0
      { pBob with hand := [⟨1, 1⟩] } rfl).2.1 rfl (by decide),
   (claim_C6_play_tile_failures gC6 "a" ⟨2, 3⟩ "up" 0
      { pAlice with hand := [⟨2, 3⟩, ⟨0, 0⟩] } rfl).2.2.2.2.2.2.1 rfl rfl
      ⟨⟨2, 3⟩, by decide, by decide⟩ rfl⟩

/-! ## C9: the session registry's active-game listing -/

/-- `rooms.GameRoomManager` (the `games` map; `matches` is not needed
by any claim). -/
structure GameRoomManager where
  games : List (String × Game)
deriving Repr

/-- `rooms.GameRoomManager.list_open_games`. -/
def list_open_games (m : GameRoomManager) : List Game :=
  (m.games.map Prod.snd).filter (fun g => g.status == .waiting)

/-- `rooms.GameRoomManager.list_active_games` — note the filter admits
only `PLAYING`. -/
def list_active_games (m : GameRoomManager) : List Game :=
  (m.games.map Prod.snd).filter (fun g => g.status == .playing)

/-- A game sitting in the PICKING phase with its timer running. -/
def gC9 : Game :=
  { gBase with
    status := .picking
    picking_started_at := some 0
    picking_tiles := generate_domino_set.enum }

/-- A registry holding exactly that picking game. -/
def rmC9 : GameRoomManager := ⟨[("g1", gC9)]⟩

/-- C9 (code bug): `list_active_games` filters on `status == PLAYING`
only, so a game in `PICKING` is not returned — the periodic
`picking_timer_task`, which iterates `list_active_games` and then
skips non-`PICKING` games, can therefore never reach a picking game
and the picking timeout never fires. -/
theorem claim_C9_picking_games_excluded :
    gC9.status = .picking ∧ ("g1", gC9) ∈ rmC9.games ∧
    list_active_games rmC9 = [] := by
  refine ⟨rfl, by decide, by decide⟩

/-! ## C8: the per-player view builder (`main.create_player_game_view`)

The match payload embedded in the view is produced by
`rooms.get_match_state`, a function of the `Match` object alone; the
registry lookup `room_manager.get_match(game.match_id)` is modelled by
the `Option MatchT` parameter.  `models.Match` in this snapshot omits
the `team_a_name` / `team_b_name` / `avatar_ids` fields that
`rooms.py` reads and writes; they are included here as the code
requires.  Timestamps are whole seconds (`Int`), so the Python
`round(remaining, 1)` is the identity. -/

/-- One completed round as stored in `Match.completed_rounds` and
serialised verbatim by `get_match_state`. -/
structure RoundResultT where
  round_number : Nat
  winner_id : Option String
  winner_team : Option String
  points_awarded : Int
  remaining_pips : List (String × Nat)
  was_blocked : Bool
deriving DecidableEq, Repr

/-- `models.Match` (the fields read by `get_match_state` and
`get_winner`). -/
structure MatchT where
  id : String
  is_team_game : Bool
  target_score : Int
  team_scores_a : Int
  team_scores_b : Int
  individual_scores : List (String × Int)
  team_a : List String
  team_b : List String
  team_a_name : String
  team_b_name : String
  player_positions : List String
  player_names : List (String × String)
  avatar_ids : List Nat
  completed_rounds : List RoundResultT
deriving DecidableEq, Repr

/-- `Match.get_current_scores`: a team pair or a copy of the
individual ledger. -/
inductive ScoresView where
  | team (a b : Int)
  | individual (scores : List (String × Int))
deriving DecidableEq, Repr

/-- `Match.get_current_scores`. -/
def Match_get_current_scores (m : MatchT) : ScoresView :=
  if m.is_team_game then .team m.team_scores_a m.team_scores_b
  else .individual m.individual_scores

/-- `Match.get_winner`: first team / first ledger entry at or above
the target. -/
def Match_get_winner (m : MatchT) : Option String :=
  if m.is_team_game then
    if m.team_scores_a ≥ m.target_score then some "team_a"
    else if m.team_scores_b ≥ m.target_score then some "team_b"
    else none
  else (m.individual_scores.find? (fun e => e.2 ≥ m.target_score)).map (·.1)

/-- The dict built by `rooms.get_match_state`. -/
structure MatchView where
  id : String
  is_team_game : Bool
  target_score : Int
  current_round : Nat
  scores : ScoresView
  team_a : List String
  team_b : List String
  team_a_name : String
  team_b_name : String
  player_positions : List String
  player_names : List (String × String)
  avatar_ids : List Nat
  completed_rounds : List RoundResultT
  match_winner : Option String
deriving DecidableEq, Repr

/-- `rooms.GameRoomManager.get_match_state`. -/
def get_match_state (m : MatchT) : MatchView :=
  { id := m.id
    is_team_game := m.is_team_game
    target_score := m.target_score
    current_round := m.completed_rounds.length + 1
    scores := Match_get_current_scores m
    team_a := if m.is_team_game then m.team_a else []
    team_b := if m.is_team_game then m.team_b else []
    team_a_name := if m.is_team_game then m.team_a_name else ""
    team_b_name := if m.is_team_game then m.team_b_name else ""
    player_positions := m.player_positions
    player_names := m.player_names
    avatar_ids := m.avatar_ids
    completed_rounds := m.completed_rounds
    match_winner := Match_get_winner m }

/-- The timer sub-dicts of the view (`started_at` keeps the raw
timestamp that the Python code serialises to ISO text). -/
structure TimerView where
  timeout : Int
  remaining : Int
  started_at : Int
deriving DecidableEq, Repr

/-- One roster entry of the view's `players` list, in the dict's key
order. -/
structure PlayerSeatView where
  id : String
  name : String
  tile_count : Nat
  score : Nat
  connected : Bool
  is_you : Bool
  is_cpu : Bool
  position : Nat
deriving DecidableEq, Repr

/-- The sanitized per-player snapshot dict. -/
structure GameView where
  id : String
  variant : String
  status : GameStatus
  current_turn : Option String
  your_player_id : String
  your_hand : List (Nat × Nat)
  board : List ((Nat × Nat) × Nat)
  ends : Option Nat × Option Nat
  players : List PlayerSeatView
  winner_id : Option String
  boneyard_count : Nat
  round_number : Nat
  match_state : Option MatchView
  turn_timer : Option TimerView
  picking_timer : Option TimerView
  available_tile_positions : List Nat
deriving DecidableEq, Repr

/-- `main.create_player_game_view`. `matchOpt` is the outcome of the
registry lookup by `game.match_id`; `now` is `datetime.utcnow()`. -/
def create_player_game_view (g : Game) (pid : String)
    (matchOpt : Option MatchT) (now : Int) : GameView :=
  let player := g.get_player pid
  let turn_timer : Option TimerView :=
    if g.turn_timeout > 0 then
      match g.turn_started_at with
      | some ts =>
        if g.status = .playing then
          some ⟨g.turn_timeout, max 0 (g.turn_timeout - (now - ts)), ts⟩
        else none
      | none => none
    else none
  let picking_timer : Option TimerView :=
    match g.picking_started_at with
    | some ts =>
      if g.status = .picking then
        some ⟨g.picking_timeout, max 0 (g.picking_timeout - (now - ts)), ts⟩
      else none
    | none => none
  { id := g.id
    variant := g.variant
    status := g.status
    current_turn := g.current_turn
    your_player_id := pid
    your_hand :=
      match player with
      | some p => p.hand.map (fun d => (d.left, d.right))
      | none => []
    board := g.board.map (fun pd =>
      ((pd.domino.left, pd.domino.right), pd.position))
    ends := (g.ends.left, g.ends.right)
    players := g.players.map (fun p =>
      { id := p.id
        name := p.name
        tile_count := p.hand.length
        score := p.score
        connected := p.connected
        is_you := p.id == pid
        is_cpu := p.is_cpu
        position := g.players.findIdx (fun q => q == p) })
    winner_id := g.winner_id
    boneyard_count := g.boneyard.length
    round_number := g.round_number
    match_state := matchOpt.map get_match_state
    turn_timer := turn_timer
    picking_timer := picking_timer
    available_tile_positions :=
      if g.status = .picking then g.picking_tiles.map Prod.fst else [] }

theorem set_getElem_self {α : Type _} (l : List α) (i : Nat)
    (h : i < l.length) : l.set i l[i] = l := by
  apply List.ext_getElem
  · simp
  · intro j h1 h2
    by_cases hij : i = j
    · subst hij; simp
    · rw [List.getElem_set_ne hij]

/-- With distinct seat ids, `list.index(p)` (modelled by `findIdx`)
recovers each seat's own index. -/
theorem findIdx_getElem_of_nodup (l : List Player)
    (hnd : (l.map Player.id).Nodup) (j : Nat) (hj : j < l.length) :
    l.findIdx (fun q => q == l[j]) = j := by
  induction l generalizing j with
  | nil => simp at hj
  | cons x rest ih =>
    rw [List.map_cons, List.nodup_cons] at hnd
    obtain ⟨hx, hnd'⟩ := hnd
    cases j with
    | zero =>
      rw [List.findIdx_cons]
      simp
    | succ j =>
      have hj' : j < rest.length := by simpa using hj
      have hget : (x :: rest)[j + 1] = rest[j] := rfl
      have hne : (x == (x :: rest)[j + 1]) = false := by
        rw [hget, beq_eq_false_iff_ne]
        intro hcon
        apply hx
        rw [hcon]
        exact List.mem_map.mpr ⟨_, List.getElem_mem hj', rfl⟩
      rw [List.findIdx_cons, hne]
      simp only [cond_false]
      rw [hget]
      rw [ih hnd' j hj']

/-- Replacing seat `i` (same id, id (≠ the looked-up one)) does not
change the result of `get_player`'s scan. -/
theorem find?_set_of_ne (ps : List Player) (p' : Player) (pid : String) :
    ∀ (i : Nat) (hi : i < ps.length), p'.id = ps[i].id → ps[i].id ≠ pid →
    (ps.set i p').find? (fun q => q.id == pid) =
      ps.find? (fun q => q.id == pid) := by
  induction ps with
  | nil => intro i hi; simp at hi
  | cons x rest ih =>
    intro i hi hid hne
    cases i with
    | zero =>
      have hx : ((x :: rest)[0]).id = x.id := rfl
      rw [hx] at hid hne
      rw [List.set_cons_zero, List.find?_cons, List.find?_cons,
        show (p'.id == pid) = false by simp [hid, hne],
        show (x.id == pid) = false by simp [hne]]
    | succ i =>
      have hi' : i < rest.length := by simpa using hi
      have hget : ((x :: rest)[i + 1]) = rest[i] := rfl
      rw [hget] at hid hne
      rw [List.set_cons_succ, List.find?_cons, List.find?_cons]
      cases hx : (x.id == pid) with
      | true => rfl
      | false => exact ih i hi' hid hne

attribute [ext] GameView PlayerSeatView

/-- C8 (amended). The snapshot for `P` carries `P`'s own hand, and no
tile of any other seat's hand influences it: replacing another seat's
hand by any same-sized hand (seat ids distinct, as the uuid ids are)
yields an identical snapshot.  Beyond name, tile count, score,
connected, is_cpu, seat index and `is_you`, each roster entry also
exposes the seat's `id` (see the counterexample), but never its
tiles. -/
theorem claim_C8_view_hiding :
    ∀ (g : Game) (pid : String) (pl : Player) (m : Option MatchT)
      (now : Int),
      g.get_player pid = some pl →
      ((create_player_game_view g pid m now).your_hand =
        pl.hand.map (fun d => (d.left, d.right))) ∧
      (∀ (i : Nat) (hi : i < g.players.length) (hand' : List Domino),
        g.players[i].id ≠ pid →
        hand'.length = g.players[i].hand.length →
        (g.players.map Player.id).Nodup →
        create_player_game_view
          { g with players :=
              g.players.set i { g.players[i] with hand := hand' } }
          pid m now = create_player_game_view g pid m now) := by
  intro g pid pl m now hfound
  constructor
  · simp only [create_player_game_view]
    rw [hfound]
  · intro i hi hand' hne hlen hnd
    have hid' : (({ g.players[i] with hand := hand' } : Player)).id =
        g.players[i].id := rfl
    have hfind := find?_set_of_ne g.players
      { g.players[i] with hand := hand' } pid i hi hid' hne
    have hids : (g.players.set i
        { g.players[i] with hand := hand' }).map Player.id =
        g.players.map Player.id := by
      rw [List.map_set, hid']
      have hmi : i < (g.players.map Player.id).length := by simpa using hi
      have : Player.id g.players[i] = (g.players.map Player.id)[i] := by
        rw [List.getElem_map]
      rw [this, set_getElem_self _ _ hmi]
    simp only [create_player_game_view]
    refine GameView.ext rfl rfl rfl rfl rfl ?_ rfl rfl ?_ rfl rfl rfl rfl
      rfl rfl rfl
    · dsimp only
      unfold Game.get_player
      dsimp only
      rw [hfind]
    · dsimp only
      apply List.ext_getElem
      · simp
      · intro j h1 h2
        have hjlen : j < g.players.length := by simpa using h2
        have hjlen' : j <
            (g.players.set i { g.players[i] with hand := hand' }).length := by
          simpa using h1
        rw [List.getElem_map, List.getElem_map]
        have hpos1 := findIdx_getElem_of_nodup
          (g.players.set i { g.players[i] with hand := hand' })
          (by rw [hids]; exact hnd) j hjlen'
        have hpos2 := findIdx_getElem_of_nodup g.players hnd j hjlen
        by_cases hij : i = j
        · subst hij
          have he : (g.players.set i
              { g.players[i] with hand := hand' })[i] =
              { g.players[i] with hand := hand' } :=
            List.getElem_set_self _
          rw [he] at hpos1 ⊢
          exact PlayerSeatView.ext rfl rfl hlen rfl rfl rfl rfl
            (by rw [hpos1, hpos2])
        · have he : (g.players.set i
              { g.players[i] with hand := hand' })[j] = g.players[j] :=
            List.getElem_set_ne hij _
          rw [he] at hpos1 ⊢
          exact PlayerSeatView.ext rfl rfl rfl rfl rfl rfl rfl
            (by rw [hpos1, hpos2])

/-- Two-seat playing fixture for C8. -/
def gC8A : Game :=
  { gBase with
    status := .playing
    players := [{ pAlice with hand := [⟨1, 1⟩] },
                { pBob with hand := [⟨2, 2⟩] }]
    current_turn := some "a" }

/-- The same fixture with the second seat's `id` (and nothing else)
changed. -/
def gC8B : Game :=
  { gBase with
    status := .playing
    players := [{ pAlice with hand := [⟨1, 1⟩] },
                { pBob with id := "b2", hand := [⟨2, 2⟩] }]
    current_turn := some "a" }

/-- Counterexample to C8 as stated: the two games agree on the second
seat's name, tile count, score, connected flag, is_cpu flag, seat
index, `is_you` (and even its hand), differing only in that seat's
`id` — yet Alice's snapshots differ, because each roster entry also
exposes the seat's `id`; so other seats are not "exposed only as" the
seven listed attributes. -/
theorem claim_C8_counterexample :
    ((gC8A.players.map Player.name = gC8B.players.map Player.name) ∧
     (gC8A.players.map (fun p => p.hand.length) =
      gC8B.players.map (fun p => p.hand.length)) ∧
     (gC8A.players.map Player.score = gC8B.players.map Player.score) ∧
     (gC8A.players.map Player.connected =
      gC8B.players.map Player.connected) ∧
     (gC8A.players.map Player.is_cpu = gC8B.players.map Player.is_cpu) ∧
     (gC8A.players.map (fun p => p.id == "a") =
      gC8B.players.map (fun p => p.id == "a"))) ∧
    create_player_game_view gC8A "a" none 0 ≠
      create_player_game_view gC8B "a" none 0 := by
  refine ⟨⟨by decide, by decide, by decide, by decide, by decide,
    by decide⟩, by decide⟩

/-- Witness for the amended C8: replacing Bob's hand `{2,2}` by the
same-sized hand `{5,6}` leaves Alice's snapshot unchanged. -/
theorem claim_C8_view_hiding_witness :
    create_player_game_view
      { gC8A with players :=
          gC8A.players.set 1 { pBob with hand := [⟨5, 6⟩] } } "a" none 0 =
      create_player_game_view gC8A "a" none 0 :=
  (claim_C8_view_hiding gC8A "a" { pAlice with hand := [⟨1, 1⟩] } none 0
    rfl).2 1 (by decide) [⟨5, 6⟩] (by decide) (by decide) (by decide)

/-! ## C10: distinct seat names (`rooms.py` / `cpu.py`)

The registry-level dict bookkeeping is orthogonal to the roster of a
single game, so `join_game` / `add_cpu_player` / `start_game_early` /
`remove_player` are embedded as per-game operations (their
`games.get(game_id)` lookup having succeeded); `finalize_match_teams`
mutates only the Match object and never the Game roster, so it is
omitted.  Fresh uuids (player ids, game id) and each `random.choice`
are explicit parameters. -/

/-- `cpu.MONKEY_SPECIES`. -/
def MONKEY_SPECIES : List String :=
  ["Bonobo", "Orangutan",
   "Siamang", "Lar Gibbon", "Agile Gibbon", "Hoolock",
   "Mandrill", "Drill", "Gelada", "Baboon", "Macaque",
   "Rhesus", "Colobus", "Guereza", "Guenon", "Langur",
   "Douc", "Lutung", "Proboscis", "Mangabey", "Patas",
   "Talapoin", "Kipunji", "Vervet", "Grivet", "Mona",
   "Capuchin", "Squirrel", "Howler", "Spider", "Woolly",
   "Muriqui", "Douroucouli", "Marmoset", "Tamarin", "Saki",
   "Uakari", "Titi", "Pygmy", "Emperor", "Cotton-top",
   "Snub-nosed", "Roloway", "DeBrazza", "Tonkin", "Sulawesi",
   "Celebes", "Toque", "Bonnet", "Pig-tailed", "Stump-tailed",
   "Tibetan", "Barbary", "Crab-eating", "Lion-tailed", "Nilgiri"]

/-- `cpu.create_cpu_player`: sample a pool name not already used; the
full-pool fallback fires only if every pool name is taken.  The Python
`index` argument is unused by the body and omitted; `cpuId` stands for
the uuid default and `k` for the `random.choice` draw. -/
def create_cpu_player (cpuId : String) (k : Nat)
    (existing_names : List String) : Player :=
  let available := MONKEY_SPECIES.filter (fun n => n ∉ existing_names)
  let available := if available.isEmpty then MONKEY_SPECIES else available
  { id := cpuId
    name := available.getD (k % available.length) ""
    hand := []
    score := 0
    connected := true
    is_cpu := true }

/-- The fields of `models.CreateGameRequest` that the roster logic
reads (pydantic bounds `2 ≤ max_players ≤ 4`, `0 ≤ cpu_players ≤ 3`
appear as hypotheses where needed). -/
structure CreateGameRequestT where
  player_name : String
  variant : String
  max_players : Nat
  cpu_players : Nat
deriving DecidableEq, Repr

/-- One iteration of the CPU-seating loop of
`rooms.GameRoomManager.create_game`: append a CPU seat avoiding the
names already present. -/
def addCpuSeat (cpuIds : List String) (ks : List Nat) (g : Game)
    (i : Nat) : Game :=
  { g with players := g.players ++
      [create_cpu_player (cpuIds.getD i "") (ks.getD i 0)
        (g.players.map Player.name)] }

/-- The creator seat built by `rooms.GameRoomManager.create_game`
(`Player(name=request.player_name)`). -/
def createCreator (req : CreateGameRequestT) (creatorId : String) : Player :=
  { id := creatorId, name := req.player_name, hand := [], score := 0,
    connected := true, is_cpu := false }

/-- The fresh `Game(...)` of `create_game` with the creator appended,
before the CPU-seating loop. -/
def createGameInit (req : CreateGameRequestT) (gid creatorId : String) :
    Game :=
  { id := gid, variant := req.variant, status := .waiting,
    players := [createCreator req creatorId], current_turn := none,
    board := [], boneyard := [], ends := ⟨none, none⟩,
    max_players := req.max_players, winner_id := none,
    round_number := 1, match_id := none, picking_tiles := [],
    turn_timeout := 0, picking_timeout := 60,
    turn_started_at := none, picking_started_at := none }

/-- `rooms.GameRoomManager.create_game`: creator seat plus
`min(cpu_players, max_players - 1)` CPU seats, each avoiding the names
already present. -/
def rooms_create_game (req : CreateGameRequestT) (gid creatorId : String)
    (cpuIds : List String) (ks : List Nat) : Game × Player :=
  let cpu_count := min req.cpu_players (req.max_players - 1)
  ((List.range cpu_count).foldl (addCpuSeat cpuIds ks)
    (createGameInit req gid creatorId),
   createCreator req creatorId)

/-- `game.players.append(p)` as a game update. -/
def appendSeat (g : Game) (p : Player) : Game :=
  { g with players := g.players ++ [p] }

/-- `rooms.GameRoomManager.join_game` on the found game. -/
def rooms_join_game (g : Game) (player_name newId : String)
    (ds : List Domino) (now : Int) : Game × Option Player × String :=
  if g.status ≠ .waiting then (g, none, "Game has already started")
  else if g.players.length ≥ g.max_players then (g, none, "Game is full")
  else if g.players.any (fun p => p.name == player_name) then
    (g, none, "Name already taken in this game")
  else
    let p : Player :=
      { id := newId, name := player_name, hand := [], score := 0,
        connected := true, is_cpu := false }
    let g₁ := appendSeat g p
    let g₂ :=
      if g₁.players.length ≥ 2 ∧ g₁.players.length = g₁.max_players then
        start_game g₁ ds now
      else g₁
    (g₂, some p, "")

/-- `rooms.GameRoomManager.add_cpu_player` on the found game. -/
def rooms_add_cpu_player (g : Game) (callerId cpuId : String) (k : Nat)
    (ds : List Domino) (now : Int) : Game × Bool × String × Bool :=
  if g.status ≠ .waiting then (g, false, "Game has already started", false)
  else
    match g.players with
    | [] => (g, false, "Only the game creator can add CPU players", false)
    | c :: _ =>
      if c.id ≠ callerId then
        (g, false, "Only the game creator can add CPU players", false)
      else if g.players.length ≥ g.max_players then
        (g, false, "Game is full", false)
      else
        let cpu := create_cpu_player cpuId k (g.players.map Player.name)
        let g₁ := appendSeat g cpu
        if g₁.players.length = g₁.max_players then
          (start_game g₁ ds now, true, "", true)
        else (g₁, true, "", false)

/-- `rooms.GameRoomManager.start_game_early` on the found game. -/
def rooms_start_game_early (g : Game) (callerId : String)
    (ds : List Domino) (now : Int) : Game × Bool × String :=
  if g.status ≠ .waiting then (g, false, "Game has already started")
  else
    match g.players with
    | [] => (g, false, "Only the game creator can start early")
    | c :: _ =>
      if c.id ≠ callerId then (g, false, "Only the game creator can start early")
      else if g.players.length < 2 then
        (g, false, "Need at least 2 players to start")
      else (start_game g ds now, true, "")

/-- `rooms.GameRoomManager.remove_player` on the found game: the seat
is kept, only `connected` is cleared. -/
def rooms_remove_player (g : Game) (pid : String) : Game × Bool :=
  match g.get_player pid with
  | some _ =>
    let ps := updatePlayer g.players pid (fun p => { p with connected := false })
    ({ g with players := ps }, true)
  | none => (g, false)

/-- The roster data the name-distinctness invariant tracks. -/
def RoomInv (g : Game) : Prop :=
  (g.players.map Player.name).Nodup ∧
  g.players.length ≤ g.max_players ∧
  g.max_players ≤ 4

/-- Games reachable through the room manager: created by `create_game`
(pydantic bounds `2 ≤ max_players ≤ 4` as hypotheses), then evolved by
the manager operations and the gameplay operations dispatched from
`main.py`; `nextRound` is `rooms.start_next_round`
(`start_new_round` followed by `start_game`). -/
inductive RoomReachable : Game → Prop where
  | create : ∀ (req : CreateGameRequestT) (gid creatorId : String)
      (cpuIds : List String) (ks : List Nat),
      2 ≤ req.max_players → req.max_players ≤ 4 →
      RoomReachable (rooms_create_game req gid creatorId cpuIds ks).1
  | join : ∀ {g} (nm newId : String) (ds : List Domino) (now : Int),
      RoomReachable g → RoomReachable (rooms_join_game g nm newId ds now).1
  | addCpu : ∀ {g} (caller cpuId : String) (k : Nat) (ds : List Domino)
      (now : Int), RoomReachable g →
      RoomReachable (rooms_add_cpu_player g caller cpuId k ds now).1
  | early : ∀ {g} (caller : String) (ds : List Domino) (now : Int),
      RoomReachable g →
      RoomReachable (rooms_start_game_early g caller ds now).1
  | remove : ∀ {g} (pid : String),
      RoomReachable g → RoomReachable (rooms_remove_player g pid).1
  | nextRound : ∀ {g} (ds : List Domino) (now : Int),
      RoomReachable g → RoomReachable (start_game (start_new_round g) ds now)
  | claim : ∀ {g} (pid : String) (pos : Nat) (now : Int),
      RoomReachable g → RoomReachable (claim_tile g pid pos now).1
  | cpuClaim : ∀ {g} (pid : String) (choice : Nat) (now : Int),
      RoomReachable g → RoomReachable (cpu_claim_tile g pid choice now).1
  | autoAssign : ∀ {g} (pid : String) (choose : Nat → Nat) (now : Int),
      RoomReachable g →
      RoomReachable (auto_assign_remaining_tiles g pid choose now).1
  | play : ∀ {g} (pid : String) (d : Domino) (side : String) (now : Int),
      RoomReachable g → RoomReachable (play_tile g pid d side now).1
  | pass : ∀ {g} (pid : String) (now : Int),
      RoomReachable g → RoomReachable (pass_turn g pid now).1

theorem MONKEY_SPECIES_nodup : MONKEY_SPECIES.Nodup := by decide

theorem MONKEY_SPECIES_length : MONKEY_SPECIES.length = 56 := by decide

/-- With at most four names in use the availability filter of
`create_cpu_player` cannot be empty, so the full-pool fallback is
unreachable. -/
theorem monkey_filter_ne_nil (ex : List String) (h : ex.length ≤ 4) :
    MONKEY_SPECIES.filter (fun n => n ∉ ex) ≠ [] := by
  intro hcon
  have hsub : MONKEY_SPECIES ⊆ ex := by
    intro n hn
    by_contra hnin
    have hmem : n ∈ MONKEY_SPECIES.filter (fun n => n ∉ ex) :=
      List.mem_filter.mpr ⟨hn, by simpa using hnin⟩
    rw [hcon] at hmem
    exact absurd hmem (List.not_mem_nil n)
  have hle := (MONKEY_SPECIES_nodup.subperm hsub).length_le
  rw [MONKEY_SPECIES_length] at hle
  omega

/-- `create_cpu_player` never picks a name that is already in use (as
long as at most four are). -/
theorem create_cpu_player_fresh (cpuId : String) (k : Nat)
    (ex : List String) (h : ex.length ≤ 4) :
    (create_cpu_player cpuId k ex).name ∉ ex := by
  have hne := monkey_filter_ne_nil ex h
  unfold create_cpu_player
  dsimp only
  rw [if_neg (by simpa [List.isEmpty_iff] using hne)]
  have hpos : 0 < (MONKEY_SPECIES.filter (fun n => n ∉ ex)).length :=
    List.length_pos.mpr hne
  have hlt : k % (MONKEY_SPECIES.filter (fun n => n ∉ ex)).length <
      (MONKEY_SPECIES.filter (fun n => n ∉ ex)).length := Nat.mod_lt k hpos
  rw [List.getD_eq_getElem?_getD, List.getElem?_eq_getElem hlt,
    Option.getD_some]
  have hmem := List.getElem_mem hlt
  have := (List.mem_filter.mp hmem).2
  simpa using this

theorem roomInv_of_roster {g h : Game}
    (hn : h.players.map Player.name = g.players.map Player.name)
    (hl : h.players.length = g.players.length)
    (hm : h.max_players = g.max_players)
    (ih : RoomInv g) : RoomInv h := by
  obtain ⟨iN, iL, iM⟩ := ih
  refine ⟨hn ▸ iN, ?_, ?_⟩
  · rw [hl, hm]; exact iL
  · rw [hm]; exact iM

theorem advance_turn_max (g : Game) (now : Int) :
    (advance_turn g now).max_players = g.max_players := by
  unfold advance_turn
  rcases g.current_turn with _ | t
  · rfl
  · dsimp only
    split
    · rfl
    · split <;> rfl

theorem check_game_over_max (g : Game) :
    (check_game_over g).max_players = g.max_players := by
  unfold check_game_over
  split
  · rfl
  · split
    · split <;> rfl
    · rfl

/-- `start_game` keeps the roster: names, seat count and capacity. -/
theorem start_game_roster (g : Game) (ds : List Domino) (now : Int) :
    (start_game g ds now).players.map Player.name =
      g.players.map Player.name ∧
    (start_game g ds now).players.length = g.players.length ∧
    (start_game g ds now).max_players = g.max_players := by
  refine ⟨?_, ?_, rfl⟩
  · unfold start_game
    dsimp only
    rw [List.map_map]
    rfl
  · unfold start_game
    dsimp only
    rw [List.length_map]

/-- `start_new_round` keeps the roster. -/
theorem start_new_round_roster (g : Game) :
    (start_new_round g).players.map Player.name =
      g.players.map Player.name ∧
    (start_new_round g).players.length = g.players.length ∧
    (start_new_round g).max_players = g.max_players := by
  refine ⟨?_, ?_, rfl⟩
  · unfold start_new_round
    dsimp only
    rw [List.map_map]
    rfl
  · unfold start_new_round
    dsimp only
    rw [List.length_map]

theorem claimUpd_roster (g : Game) (pid : String) (pos : Nat)
    (tile : Domino) :
    (claimUpd g pid pos tile).players.map Player.name =
      g.players.map Player.name ∧
    (claimUpd g pid pos tile).players.length = g.players.length ∧
    (claimUpd g pid pos tile).max_players = g.max_players :=
  ⟨updatePlayer_map_name _ _ _ (fun _ => rfl), updatePlayer_length _ _ _, rfl⟩

theorem claim_tile_roster (g : Game) (pid : String) (pos : Nat)
    (now : Int) :
    (claim_tile g pid pos now).1.players.map Player.name =
      g.players.map Player.name ∧
    (claim_tile g pid pos now).1.players.length = g.players.length ∧
    (claim_tile g pid pos now).1.max_players = g.max_players := by
  rcases claim_tile_cases g pid pos now with h |
    ⟨_, p, tile, _, _, ⟨_, h⟩ | ⟨_, h⟩⟩
  · rw [h]; exact ⟨rfl, rfl, rfl⟩
  · rw [h]; exact claimUpd_roster g pid pos tile
  · rw [h]; exact claimUpd_roster g pid pos tile

theorem cpu_claim_tile_roster (g : Game) (pid : String) (choice : Nat)
    (now : Int) :
    (cpu_claim_tile g pid choice now).1.players.map Player.name =
      g.players.map Player.name ∧
    (cpu_claim_tile g pid choice now).1.players.length =
      g.players.length ∧
    (cpu_claim_tile g pid choice now).1.max_players = g.max_players := by
  rcases cpu_claim_tile_cases g pid choice now with h | ⟨k, h⟩
  · rw [h]; exact ⟨rfl, rfl, rfl⟩
  · rw [h]; exact claim_tile_roster g pid k now

theorem autoAssignLoop_roster (pid : String) (choose : Nat → Nat) :
    ∀ (fuel : Nat) (g : Game) (step : Nat),
      (autoAssignLoop g pid choose step fuel).1.players.map Player.name =
        g.players.map Player.name ∧
      (autoAssignLoop g pid choose step fuel).1.players.length =
        g.players.length ∧
      (autoAssignLoop g pid choose step fuel).1.max_players =
        g.max_players := by
  intro fuel
  induction fuel with
  | zero => intro g step; exact ⟨rfl, rfl, rfl⟩
  | succ fuel ih =>
    intro g step
    unfold autoAssignLoop
    split
    · exact ⟨rfl, rfl, rfl⟩
    · next player hfound =>
      split
      · dsimp only
        split
        · exact ⟨rfl, rfl, rfl⟩
        · next tile hlook =>
          dsimp only
          obtain ⟨h₁, h₂, h₃⟩ := ih _ (step + 1)
          refine ⟨h₁.trans ?_, h₂.trans ?_, h₃⟩
          · exact updatePlayer_map_name _ _ _ (fun _ => rfl)
          · exact updatePlayer_length _ _ _
      · exact ⟨rfl, rfl, rfl⟩

theorem auto_assign_roster (g : Game) (pid : String)
    (choose : Nat → Nat) (now : Int) :
    (auto_assign_remaining_tiles g pid choose now).1.players.map
        Player.name = g.players.map Player.name ∧
    (auto_assign_remaining_tiles g pid choose now).1.players.length =
      g.players.length ∧
    (auto_assign_remaining_tiles g pid choose now).1.max_players =
      g.max_players := by
  rcases auto_assign_structure g pid choose now with h |
    ⟨_, ⟨_, h⟩ | ⟨_, h⟩⟩
  · rw [h]; exact ⟨rfl, rfl, rfl⟩
  · rw [h]; exact autoAssignLoop_roster pid choose g.picking_tiles.length g 0
  · rw [h]; exact autoAssignLoop_roster pid choose g.picking_tiles.length g 0

theorem pass_turn_roster (g : Game) (pid : String) (now : Int) :
    (pass_turn g pid now).1.players.map Player.name =
      g.players.map Player.name ∧
    (pass_turn g pid now).1.players.length = g.players.length ∧
    (pass_turn g pid now).1.max_players = g.max_players := by
  rcases pass_turn_cases g pid now with h | ⟨_, _, h⟩
  · rw [h]; exact ⟨rfl, rfl, rfl⟩
  · rw [h, (check_game_over_frame _).1, (advance_turn_frame g now).1,
      check_game_over_max, advance_turn_max]
    exact ⟨rfl, rfl, rfl⟩

theorem play_tile_roster (g : Game) (pid : String) (d : Domino)
    (side : String) (now : Int) :
    (play_tile g pid d side now).1.players.map Player.name =
      g.players.map Player.name ∧
    (play_tile g pid d side now).1.players.length = g.players.length ∧
    (play_tile g pid d side now).1.max_players = g.max_players := by
  rcases play_tile_cases g pid d side now with h |
    ⟨_, _, _, g₁, heq, _, _, _, _, _, hn, hl, hm⟩
  · rw [h]; exact ⟨rfl, rfl, rfl⟩
  · rw [heq, (check_game_over_frame _).1, (advance_turn_frame g₁ now).1,
      check_game_over_max, advance_turn_max, hm]
    exact ⟨hn, by rw [hl], rfl⟩

theorem addCpuSeat_players (cpuIds : List String) (ks : List Nat)
    (g : Game) (i : Nat) :
    (addCpuSeat cpuIds ks g i).players = g.players ++
      [create_cpu_player (cpuIds.getD i "") (ks.getD i 0)
        (g.players.map Player.name)] := rfl

theorem addCpuSeat_max (cpuIds : List String) (ks : List Nat)
    (g : Game) (i : Nat) :
    (addCpuSeat cpuIds ks g i).max_players = g.max_players := rfl

theorem nodup_concat_of {α : Type} {l : List α} {a : α}
    (h : l.Nodup) (ha : a ∉ l) : (l ++ [a]).Nodup := by
  rw [List.nodup_append]
  exact ⟨h, List.nodup_singleton a, by
    intro x hx hx1
    rw [List.mem_singleton] at hx1
    exact ha (hx1 ▸ hx)⟩

/-- The CPU-seating loop of `create_game` keeps the names distinct and
adds one seat per iteration (needs room for every new seat under the
four-seat bound, so that the pool filter stays non-empty). -/
theorem cpu_fold_roster (cpuIds : List String) (ks : List Nat) :
    ∀ (n : Nat) (g : Game),
      (g.players.map Player.name).Nodup →
      g.players.length + n ≤ 4 →
      ((((List.range n).foldl (addCpuSeat cpuIds ks) g).players.map
          Player.name).Nodup ∧
       ((List.range n).foldl (addCpuSeat cpuIds ks) g).players.length =
         g.players.length + n ∧
       ((List.range n).foldl (addCpuSeat cpuIds ks) g).max_players =
         g.max_players) := by
  intro n
  induction n with
  | zero => intro g hN hL; exact ⟨hN, by simp, rfl⟩
  | succ n ih =>
    intro g hN hL
    rw [List.range_succ, List.foldl_append]
    obtain ⟨iN, iL, iM⟩ := ih g hN (by omega)
    simp only [List.foldl_cons, List.foldl_nil]
    have hexlen :
        ((((List.range n).foldl (addCpuSeat cpuIds ks) g).players.map
          Player.name)).length ≤ 4 := by
      rw [List.length_map, iL]; omega
    have hfresh := create_cpu_player_fresh (cpuIds.getD n "")
      (ks.getD n 0)
      (((List.range n).foldl (addCpuSeat cpuIds ks) g).players.map
        Player.name) hexlen
    refine ⟨?_, ?_, ?_⟩
    · rw [addCpuSeat_players, List.map_append, List.map_cons, List.map_nil]
      exact nodup_concat_of iN hfresh
    · rw [addCpuSeat_players, List.length_append, iL]
      simp [Nat.add_assoc]
    · rw [addCpuSeat_max]; exact iM

/-- `create_game` establishes the roster invariant. -/
theorem roomInv_create (req : CreateGameRequestT) (gid creatorId : String)
    (cpuIds : List String) (ks : List Nat)
    (h2 : 2 ≤ req.max_players) (h4 : req.max_players ≤ 4) :
    RoomInv (rooms_create_game req gid creatorId cpuIds ks).1 := by
  unfold rooms_create_game
  dsimp only
  have h1 : (createGameInit req gid creatorId).players.length = 1 := rfl
  have hM : (createGameInit req gid creatorId).max_players =
      req.max_players := rfl
  have hmin : min req.cpu_players (req.max_players - 1) ≤
      req.max_players - 1 := Nat.min_le_right _ _
  have hN : ((createGameInit req gid creatorId).players.map
      Player.name).Nodup := List.nodup_singleton _
  obtain ⟨iN, iL, iM⟩ := cpu_fold_roster cpuIds ks
    (min req.cpu_players (req.max_players - 1))
    (createGameInit req gid creatorId) hN (by rw [h1]; omega)
  exact ⟨iN, by rw [iL, h1, iM, hM]; omega, by rw [iM, hM]; omega⟩

theorem appendSeat_players (g : Game) (p : Player) :
    (appendSeat g p).players = g.players ++ [p] := rfl

theorem appendSeat_max (g : Game) (p : Player) :
    (appendSeat g p).max_players = g.max_players := rfl

/-- Appending a fresh name to a non-full roster keeps the invariant. -/
theorem roomInv_appendSeat {g : Game} {p : Player}
    (hin : p.name ∉ g.players.map Player.name)
    (hlt : g.players.length < g.max_players)
    (ih : RoomInv g) : RoomInv (appendSeat g p) := by
  obtain ⟨iN, iL, iM⟩ := ih
  refine ⟨?_, ?_, ?_⟩
  · rw [appendSeat_players, List.map_append, List.map_cons, List.map_nil]
    exact nodup_concat_of iN hin
  · rw [appendSeat_players, appendSeat_max, List.length_append]
    simp only [List.length_cons, List.length_nil]
    omega
  · rw [appendSeat_max]; exact iM

/-- `join_game` keeps the invariant: it rejects duplicate names and
full rosters, and the auto-start only reshuffles hands. -/
theorem roomInv_join (g : Game) (nm newId : String) (ds : List Domino)
    (now : Int) (ih : RoomInv g) :
    RoomInv (rooms_join_game g nm newId ds now).1 := by
  unfold rooms_join_game
  split
  · exact ih
  · split
    · exact ih
    · next hfull =>
      split
      · exact ih
      · next htaken =>
        dsimp only
        have hnotin : nm ∉ g.players.map Player.name := by
          intro hmem
          rcases List.mem_map.mp hmem with ⟨q, hq, hqn⟩
          exact htaken (List.any_eq_true.mpr ⟨q, hq, by simp [hqn]⟩)
        have hlt : g.players.length < g.max_players := by omega
        split
        · exact roomInv_of_roster (start_game_roster _ ds now).1
            (start_game_roster _ ds now).2.1
            (start_game_roster _ ds now).2.2
            (roomInv_appendSeat hnotin hlt ih)
        · exact roomInv_appendSeat hnotin hlt ih

/-- `add_cpu_player` keeps the invariant: the CPU name is drawn from
the pool filtered against the names in use. -/
theorem roomInv_addCpu (g : Game) (caller cpuId : String) (k : Nat)
    (ds : List Domino) (now : Int) (ih : RoomInv g) :
    RoomInv (rooms_add_cpu_player g caller cpuId k ds now).1 := by
  obtain ⟨iN, iL, iM⟩ := ih
  unfold rooms_add_cpu_player
  split
  · exact ⟨iN, iL, iM⟩
  · split
    · exact ⟨iN, iL, iM⟩
    · split
      · exact ⟨iN, iL, iM⟩
      · split
        · exact ⟨iN, iL, iM⟩
        · next hfull =>
          dsimp only
          have hlt : g.players.length < g.max_players := by omega
          have hle4 : (g.players.map Player.name).length ≤ 4 := by
            rw [List.length_map]; omega
          have hfresh := create_cpu_player_fresh cpuId k
            (g.players.map Player.name) hle4
          split
          · exact roomInv_of_roster (start_game_roster _ ds now).1
              (start_game_roster _ ds now).2.1
              (start_game_roster _ ds now).2.2
              (roomInv_appendSeat hfresh hlt ⟨iN, iL, iM⟩)
          · exact roomInv_appendSeat hfresh hlt ⟨iN, iL, iM⟩

/-- `start_game_early` keeps the invariant. -/
theorem roomInv_early (g : Game) (caller : String) (ds : List Domino)
    (now : Int) (ih : RoomInv g) :
    RoomInv (rooms_start_game_early g caller ds now).1 := by
  unfold rooms_start_game_early
  split
  · exact ih
  · split
    · exact ih
    · split
      · exact ih
      · split
        · exact ih
        · exact roomInv_of_roster (start_game_roster g ds now).1
            (start_game_roster g ds now).2.1
            (start_game_roster g ds now).2.2 ih

/-- `remove_player` keeps the invariant (the seat stays, only
`connected` is cleared). -/
theorem roomInv_remove (g : Game) (pid : String) (ih : RoomInv g) :
    RoomInv (rooms_remove_player g pid).1 := by
  unfold rooms_remove_player
  split
  · dsimp only
    refine roomInv_of_roster ?_ ?_ ?_ ih
    · exact updatePlayer_map_name _ _ _ (fun _ => rfl)
    · exact updatePlayer_length _ _ _
    · rfl
  · exact ih

/-- `start_next_round` (reset then redeal) keeps the invariant. -/
theorem roomInv_nextRound (g : Game) (ds : List Domino) (now : Int)
    (ih : RoomInv g) : RoomInv (start_game (start_new_round g) ds now) := by
  refine roomInv_of_roster ?_ ?_ ?_ ih
  · exact (start_game_roster _ ds now).1.trans (start_new_round_roster g).1
  · exact (start_game_roster _ ds now).2.1.trans
      (start_new_round_roster g).2.1
  · exact (start_game_roster _ ds now).2.2.trans
      (start_new_round_roster g).2.2

/-- The roster invariant holds in every reachable game. -/
theorem roomReachable_roomInv : ∀ {g : Game}, RoomReachable g → RoomInv g := by
  intro g h
  induction h with
  | create req gid creatorId cpuIds ks h2 h4 =>
    exact roomInv_create req gid creatorId cpuIds ks h2 h4
  | join nm newId ds now _ ih => exact roomInv_join _ nm newId ds now ih
  | addCpu caller cpuId k ds now _ ih =>
    exact roomInv_addCpu _ caller cpuId k ds now ih
  | early caller ds now _ ih => exact roomInv_early _ caller ds now ih
  | remove pid _ ih => exact roomInv_remove _ pid ih
  | nextRound ds now _ ih => exact roomInv_nextRound _ ds now ih
  | claim pid pos now _ ih =>
    exact roomInv_of_roster (claim_tile_roster _ pid pos now).1
      (claim_tile_roster _ pid pos now).2.1
      (claim_tile_roster _ pid pos now).2.2 ih
  | cpuClaim pid choice now _ ih =>
    exact roomInv_of_roster (cpu_claim_tile_roster _ pid choice now).1
      (cpu_claim_tile_roster _ pid choice now).2.1
      (cpu_claim_tile_roster _ pid choice now).2.2 ih
  | autoAssign pid choose now _ ih =>
    exact roomInv_of_roster (auto_assign_roster _ pid choose now).1
      (auto_assign_roster _ pid choose now).2.1
      (auto_assign_roster _ pid choose now).2.2 ih
  | play pid d side now _ ih =>
    exact roomInv_of_roster (play_tile_roster _ pid d side now).1
      (play_tile_roster _ pid d side now).2.1
      (play_tile_roster _ pid d side now).2.2 ih
  | pass pid now _ ih =>
    exact roomInv_of_roster (pass_turn_roster _ pid now).1
      (pass_turn_roster _ pid now).2.1
      (pass_turn_roster _ pid now).2.2 ih

/-- C10: In every reachable game the display names of the seated
players are pairwise distinct.  The reasons given by the claim hold as
well: `join_game` (on a joinable game) rejects a name already used by
any seat with "Name already taken in this game" and an unchanged game;
`create_cpu_player` picks a name not already in use, its full-pool
fallback being unreachable with at most four seats because the filtered
pool is then non-empty; and `remove_player` never deletes a seat (the
name roster is unchanged). -/
theorem claim_C10_distinct_names :
    (∀ g : Game, RoomReachable g → (g.players.map Player.name).Nodup) ∧
    (∀ (g : Game) (nm newId : String) (ds : List Domino) (now : Int),
      g.status = .waiting → g.players.length < g.max_players →
      nm ∈ g.players.map Player.name →
      rooms_join_game g nm newId ds now =
        (g, none, "Name already taken in this game")) ∧
    (∀ (cpuId : String) (k : Nat) (ex : List String), ex.length ≤ 4 →
      MONKEY_SPECIES.filter (fun n => n ∉ ex) ≠ [] ∧
      (create_cpu_player cpuId k ex).name ∉ ex) ∧
    (∀ (g : Game) (pid : String),
      (rooms_remove_player g pid).1.players.map Player.name =
        g.players.map Player.name) := by
  refine ⟨fun g h => (roomReachable_roomInv h).1, ?_, ?_, ?_⟩
  · intro g nm newId ds now hst hlt hmem
    rcases List.mem_map.mp hmem with ⟨q, hq, hqn⟩
    unfold rooms_join_game
    rw [if_neg (not_not_intro hst), if_neg (by omega),
      if_pos (List.any_eq_true.mpr ⟨q, hq, by simp [hqn]⟩)]
  · intro cpuId k ex h
    exact ⟨monkey_filter_ne_nil ex h, create_cpu_player_fresh cpuId k ex h⟩
  · intro g pid
    unfold rooms_remove_player
    split
    · dsimp only
      exact updatePlayer_map_name _ _ _ (fun _ => rfl)
    · rfl

theorem claim_C10_distinct_names_witness :
    (((rooms_create_game ⟨"Ann", "block", 4, 3⟩ "g1" "u1"
        ["c1", "c2", "c3"] [0, 1, 2]).1.players.map Player.name).Nodup ∧
     rooms_join_game (createGameInit ⟨"Ann", "block", 4, 0⟩ "g1" "u1")
        "Ann" "u2" [] 0 =
       (createGameInit ⟨"Ann", "block", 4, 0⟩ "g1" "u1", none,
        "Name already taken in this game") ∧
     MONKEY_SPECIES.filter (fun n => n ∉ ["Ann"]) ≠ [] ∧
     (create_cpu_player "c9" 5 ["Ann"]).name ∉ ["Ann"] ∧
     (rooms_remove_player
        (createGameInit ⟨"Ann", "block", 4, 0⟩ "g1" "u1") "u1").1.players.map
          Player.name =
       (createGameInit ⟨"Ann", "block", 4, 0⟩ "g1" "u1").players.map
         Player.name) :=
  ⟨claim_C10_distinct_names.1 _
     (RoomReachable.create ⟨"Ann", "block", 4, 3⟩ "g1" "u1"
       ["c1", "c2", "c3"] [0, 1, 2] (by decide) (by decide)),
   claim_C10_distinct_names.2.1 _ "Ann" "u2" [] 0 rfl (by decide)
     (by decide),
   (claim_C10_distinct_names.2.2.1 "c9" 5 ["Ann"] (by decide)).1,
   (claim_C10_distinct_names.2.2.1 "c9" 5 ["Ann"] (by decide)).2,
   claim_C10_distinct_names.2.2.2 _ "u1"⟩
